import Mathlib

/-!
Verification of the CycloneDX→SPDX converter (`create_spdx_sbom.py`) and the
test-dependency pruner (`remove_test_dependencies.py`).

The core logic of both scripts is shallowly embedded below:
  * `sanitize`, `natToStr`, `findFreeLoop`, `generate_unique_spdx_id`
      model `generate_unique_spdx_id` (create_spdx_sbom.py lines 721-761);
  * `buildMetadata` models the aggregation part of `get_dependency_metadata`
      (lines 302-335): the dependency list, the direct-dependency set and the
      parent→children map;
  * `convert_cyclonedx_to_spdx` models the function of the same name
      (lines 486-719), with the fetched inputs (components, dependency
      metadata, uuids, timestamps) passed as explicit parameters;
  * `is_test_dependency` and `remove_test_dependencies` model the functions
      of the same names (remove_test_dependencies.py lines 310-404).

Python dicts are modelled as association lists where the entry written last
wins on lookup; Python sets as duplicate-free lists; missing JSON keys as
`Option`.  The mutable `used_ids` set that `generate_unique_spdx_id` updates
in place is threaded explicitly by the caller (`processComponents`).
-/

/-- Replacement step of `re.sub(r'[^a-zA-Z0-9]', '-', s)`: any character that
is not ASCII alphanumeric becomes a hyphen. -/
def replChar (c : Char) : Char := if c.isAlphanum then c else '-'

/-- Model of `re.sub(r'-+', '-', s)`: collapse consecutive hyphens to one. -/
def collapseHyphens : List Char → List Char
  | [] => []
  | [c] => [c]
  | c :: d :: rest =>
      if c = '-' ∧ d = '-' then collapseHyphens (d :: rest)
      else c :: collapseHyphens (d :: rest)

/-- Model of `str.strip('-')`: drop leading and trailing hyphens. -/
def stripHyphens (l : List Char) : List Char :=
  ((l.dropWhile (· = '-')).reverse.dropWhile (· = '-')).reverse

/-- Sanitization pipeline applied to the component name and version in
`generate_unique_spdx_id`: replace non-alphanumerics by hyphens, collapse
hyphen runs, strip boundary hyphens. -/
def sanitize (s : String) : String :=
  String.mk (stripHyphens (collapseHyphens (s.data.map replChar)))

/-- The decimal digit characters used when printing the collision counter. -/
def digitChar (d : Nat) : Char :=
  match d with
  | 0 => '0' | 1 => '1' | 2 => '2' | 3 => '3' | 4 => '4'
  | 5 => '5' | 6 => '6' | 7 => '7' | 8 => '8' | _ => '9'

/-- Decimal digits of `n`, least significant first, by structural recursion
on a fuel bound (any `fuel ≥ n` gives the true digit list, see
`toDigitsRev_eq_digits`). -/
def toDigitsRev : Nat → Nat → List Nat
  | 0, _ => []
  | fuel + 1, n => if n = 0 then [] else n % 10 :: toDigitsRev fuel (n / 10)

/-- Decimal rendering of a natural number, as Python's `str(counter)`. -/
def natToStr (n : Nat) : String :=
  if n = 0 then "0" else String.mk ((toDigitsRev n n).reverse.map digitChar)

/-- Candidate identifier tried by the collision loop at counter value `k`. -/
def counterCand (base : String) (k : Nat) : String :=
  base ++ "-" ++ natToStr k

/-- The `while unique_id in used_ids` loop of `generate_unique_spdx_id`,
with an explicit fuel argument (the loop in the source always terminates
because the candidate strings are pairwise distinct and the used-ID set is
finite; `findFreeLoop_not_mem` below proves the fuel chosen in
`generate_unique_spdx_id` suffices). -/
def findFreeLoop (base : String) (used : List String) : Nat → Nat → String
  | 0, k => counterCand base k
  | fuel + 1, k =>
      if counterCand base k ∈ used then findFreeLoop base used fuel (k + 1)
      else counterCand base k

/-- The base identifier `SPDXRef-Package-{name}` optionally suffixed with
`-{version}` built from the sanitized name and version
(create_spdx_sbom.py lines 733-751; the version part is skipped when the
version, or its sanitization, is empty). -/
def spdxBaseId (component_name component_version : String) : String :=
  let sanitized_name := sanitize component_name
  let sanitized_version :=
    if component_version ≠ "" then sanitize component_version else ""
  if sanitized_version ≠ "" then
    "SPDXRef-Package-" ++ sanitized_name ++ "-" ++ sanitized_version
  else
    "SPDXRef-Package-" ++ sanitized_name

/-- Model of `generate_unique_spdx_id` (create_spdx_sbom.py lines 721-761).
The caller adds the returned ID to the used set. -/
def generate_unique_spdx_id (component_name component_version : String)
    (used_ids : List String) : String :=
  let base_id := spdxBaseId component_name component_version
  if base_id ∈ used_ids then findFreeLoop base_id used_ids (used_ids.length + 1) 1
  else base_id

/-- A string containing no colon character; SPDX IDs produced by
`generate_unique_spdx_id` satisfy this, which makes the converter's
`"{parent_spdxid}:{dep_spdxid}"` dedup keys unambiguous. -/
def NoColon (s : String) : Prop := ∀ c ∈ s.data, c ≠ ':'

instance (s : String) : Decidable (NoColon s) :=
  inferInstanceAs (Decidable (∀ c ∈ s.data, c ≠ ':'))

/-- A CycloneDX external reference: `{type, url}` with both keys optional. -/
structure ExternalRef where
  type : Option String
  url : Option String
deriving DecidableEq

/-- The object under a CycloneDX license entry's `license` key. -/
structure LicenseObj where
  id : Option String
  name : Option String
deriving DecidableEq

/-- One entry of a CycloneDX `licenses` list: either a `license` object or a
free-form `expression`. -/
structure LicenseEntry where
  license : Option LicenseObj
  expression : Option String
deriving DecidableEq

/-- A CycloneDX component as read by `convert_cyclonedx_to_spdx`.  `none`
models a missing JSON key; `supplier = some n` models a present supplier
object whose `name` key is `n`. -/
structure Component where
  name : Option String
  version : Option String
  supplier : Option (Option String)
  publisher : Option String
  externalReferences : Option (List ExternalRef)
  purl : Option String
  licenses : List LicenseEntry
deriving DecidableEq

/-- An SPDX package record as emitted by the converter. -/
structure SpdxPackage where
  SPDXID : String
  name : String
  versionInfo : String
  supplier : String
  downloadLocation : String
  licenseConcluded : String
  licenseDeclared : String
deriving DecidableEq

/-- An SPDX relationship record. -/
structure SpdxRel where
  spdxElementId : String
  relatedSpdxElement : String
  relationshipType : String
deriving DecidableEq

/-- The `creationInfo` object of an SPDX document. -/
structure CreationInfo where
  created : String
  creators : List String
deriving DecidableEq

/-- An SPDX document.  `relationships = none` models a document without a
`relationships` key (`remove_test_dependencies` guards on its presence). -/
structure SpdxDoc where
  SPDXID : String
  spdxVersion : String
  creationInfo : CreationInfo
  name : String
  dataLicense : String
  documentNamespace : String
  documentDescribes : List String
  packages : List SpdxPackage
  relationships : Option (List SpdxRel)
deriving DecidableEq

/-- One dependency record assembled by `get_dependency_metadata`
(create_spdx_sbom.py lines 318-324): the fully qualified name such as
`pypi://requests@2.32.3`, the package name, the resolved version, the
direct flag and the parent version name (empty for root-level edges). -/
structure DepInfo where
  name : String
  package_name : String
  version : String
  is_direct : Bool
  parent : String
deriving DecidableEq

/-- The aggregate returned by `get_dependency_metadata`
(create_spdx_sbom.py lines 351-355). -/
structure DepMetadata where
  dependencies : List DepInfo
  direct_dependencies : List String
  package_name_to_deps : List (String × List String)
deriving DecidableEq

/-- Adding to the Python set `direct_dependencies` (line 329). -/
def addDirect (s : List String) (fn : String) : List String :=
  if fn ∈ s then s else s ++ [fn]

/-- Appending `full_name` to `package_name_to_deps[parent_name]`, creating
the dict entry when absent (create_spdx_sbom.py lines 332-335). -/
def addParentDep (m : List (String × List String)) (p fn : String) :
    List (String × List String) :=
  if m.any (fun e => e.1 == p) then
    m.map (fun e => if e.1 == p then (e.1, e.2 ++ [fn]) else e)
  else m ++ [(p, [fn])]

/-- The per-record aggregation step of `get_dependency_metadata`
(create_spdx_sbom.py lines 302-335). -/
def metaStep (md : DepMetadata) (d : DepInfo) : DepMetadata :=
  { dependencies := md.dependencies ++ [d],
    direct_dependencies :=
      if d.is_direct then addDirect md.direct_dependencies d.name
      else md.direct_dependencies,
    package_name_to_deps :=
      if d.parent ≠ "" then addParentDep md.package_name_to_deps d.parent d.name
      else md.package_name_to_deps }

/-- Aggregation of the fetched dependency records into the structure
`get_dependency_metadata` returns. -/
def buildMetadata (objs : List DepInfo) : DepMetadata :=
  objs.foldl metaStep ⟨[], [], []⟩

/-- Lookup in a Python-dict-as-association-list; entries produced by a later
dict write are stored earlier in the list, so the first hit is the value of
the last write. -/
def lookupAssoc (m : List (String × String)) (k : String) : Option String :=
  (m.find? (fun e => e.1 == k)).map (·.2)

/-- Lookup in the `package_name_to_deps` dict. -/
def lookupDeps (m : List (String × List String)) (p : String) :
    Option (List String) :=
  (m.find? (fun e => e.1 == p)).map (·.2)

/-- Whether the first list is a prefix of the second. -/
def takesPrefix : List Char → List Char → Bool
  | [], _ => true
  | _ :: _, [] => false
  | a :: s, b :: l => a == b && takesPrefix s l

/-- One splitting pass of Python's `str.split(sep)` for a non-empty
separator, with a fuel bound (any `fuel > length` of the scanned list
suffices since every step consumes at least one character); `acc` is the
current chunk, reversed. -/
def splitSepGo (sep : List Char) : Nat → List Char → List Char →
    List (List Char)
  | 0, l, acc => [acc.reverse ++ l]
  | fuel + 1, l, acc =>
      match l with
      | [] => [acc.reverse]
      | c :: rest =>
          if takesPrefix sep l then
            acc.reverse :: splitSepGo sep fuel (l.drop sep.length) []
          else
            splitSepGo sep fuel rest (c :: acc)

/-- Python's `str.split(sep)` for a non-empty separator string. -/
def pySplit (s sep : String) : List String :=
  (splitSepGo sep.data (s.data.length + 1) s.data []).map String.mk

/-- The `"{name}@{version}"` lookup key computed from a fully qualified
dependency name (create_spdx_sbom.py lines 656-661): `none` when the full
name contains no `@`; otherwise the scheme prefix up to `://` is stripped
from the part before the first `@`, and the part between the first and the
second `@` (if any) is taken as the version. -/
def depKey (full_name : String) : Option String :=
  match pySplit full_name "@" with
  | p0 :: p1 :: _ => some (((pySplit p0 "://").getLastD p0) ++ "@" ++ p1)
  | _ => none

/-- The SPDX ID a fully qualified dependency name resolves to through the
component table (create_spdx_sbom.py lines 661-663). -/
def resolveDep (table : List (String × String)) (full_name : String) :
    Option String :=
  (depKey full_name).bind (fun k => lookupAssoc table k)

/-- The `api_name_to_spdxid` dict (create_spdx_sbom.py lines 651-663),
built by one dict write per resolvable dependency record. -/
def buildApiMap (table : List (String × String)) : List DepInfo →
    List (String × String)
  | [] => []
  | d :: rest =>
      match resolveDep table d.name with
      | some v => buildApiMap table rest ++ [(d.name, v)]
      | none => buildApiMap table rest

/-- Missing-supplier handling (create_spdx_sbom.py lines 584-586): the
supplier object's `name` with default `"NOASSERTION"`; the `publisher` key
is consulted only when that value is empty (falsy) and the key exists. -/
def supplierNameOf (c : Component) : String :=
  let s0 := match c.supplier with
    | none => "NOASSERTION"
    | some sn => sn.getD "NOASSERTION"
  if s0 = "" then
    match c.publisher with
    | some p => p
    | none => s0
  else s0

/-- External-reference types accepted as a download location source. -/
def isVcsOrDist (r : ExternalRef) : Bool :=
  r.type == some "vcs" || r.type == some "distribution"

/-- Download-location resolution (create_spdx_sbom.py lines 588-596): the
`url` of the first external reference typed `vcs` or `distribution` when an
`externalReferences` key exists, else the `purl` key, with `"NOASSERTION"`
defaults. -/
def downloadLocationOf (c : Component) : String :=
  match c.externalReferences with
  | some refs =>
      match refs.find? isVcsOrDist with
      | some r => r.url.getD "NOASSERTION"
      | none => "NOASSERTION"
  | none => c.purl.getD "NOASSERTION"

/-- The license identifier contributed by one `licenses` entry
(create_spdx_sbom.py lines 622-632): from a `license` object, the truthy one
of `id` then `name`; otherwise the `expression` key; empty results are
dropped. -/
def entryLicenseId (li : LicenseEntry) : Option String :=
  match li.license with
  | some lo =>
      let idv := lo.id.getD ""
      let v := if idv ≠ "" then idv else lo.name.getD ""
      if v ≠ "" then some v else none
  | none =>
      match li.expression with
      | some e => if e ≠ "" then some e else none
      | none => none

/-- The SPDX package built for one CycloneDX component
(create_spdx_sbom.py lines 581-639), given the generated unique ID. -/
def mkPackage (c : Component) (spdx_id : String) : SpdxPackage :=
  let license_ids := c.licenses.filterMap entryLicenseId
  let lic :=
    if license_ids ≠ [] then String.intercalate " AND " license_ids
    else "NOASSERTION"
  { SPDXID := spdx_id,
    name := c.name.getD "Unknown Component",
    versionInfo := c.version.getD "0.0.0",
    supplier := "Organization: " ++ supplierNameOf c,
    downloadLocation := downloadLocationOf c,
    licenseConcluded := lic,
    licenseDeclared := lic }

/-- State threaded through the component loop of `convert_cyclonedx_to_spdx`:
the packages emitted so far, the `name_to_spdxid` dict and the `used_spdx_ids`
set (later dict writes are stored earlier in `table`, cf. `lookupAssoc`). -/
structure CompState where
  packages : List SpdxPackage
  table : List (String × String)
  used : List String
deriving DecidableEq

/-- The component loop of `convert_cyclonedx_to_spdx` (lines 581-639): one
package per component, a `name_to_spdxid` entry per component, and the
used-ID set grown by each generated ID (the Python version grows the set
inside `generate_unique_spdx_id`). -/
def processComponents : List Component → List String → CompState
  | [], used => ⟨[], [], used⟩
  | c :: rest, used =>
      let cname := c.name.getD "Unknown Component"
      let cver := c.version.getD "0.0.0"
      let id := generate_unique_spdx_id cname cver used
      let st := processComponents rest (id :: used)
      ⟨mkPackage c id :: st.packages, st.table ++ [(cname ++ "@" ++ cver, id)],
        st.used⟩

/-- A DEPENDS_ON relationship record. -/
def depOn (src tgt : String) : SpdxRel := ⟨src, tgt, "DEPENDS_ON"⟩

/-- A DEPENDENCY_OF relationship record. -/
def depOf (src tgt : String) : SpdxRel := ⟨src, tgt, "DEPENDENCY_OF"⟩

/-- The loop over `direct_deps` (create_spdx_sbom.py lines 668-684): each
resolvable direct dependency yields a DEPENDS_ON / DEPENDENCY_OF pair
between the application package and the dependency. -/
def directRels (api : List (String × String)) (appId : String) :
    List String → List SpdxRel
  | [] => []
  | dn :: rest =>
      match lookupAssoc api dn with
      | some did => depOn appId did :: depOf did appId :: directRels api appId rest
      | none => directRels api appId rest

/-- The inner loop over one parent's dependency list
(create_spdx_sbom.py lines 691-714), with the `already_processed` key set
threaded through; returns the emitted relationships and the grown key set. -/
def childLoop (api : List (String × String)) (pid : String) :
    List String → List String → List SpdxRel × List String
  | [], processed => ([], processed)
  | dn :: rest, processed =>
      match lookupAssoc api dn with
      | none => childLoop api pid rest processed
      | some cid =>
          if (pid ++ ":" ++ cid) ∈ processed then childLoop api pid rest processed
          else
            let r := childLoop api pid rest ((pid ++ ":" ++ cid) :: processed)
            (depOn pid cid :: depOf cid pid :: r.1, r.2)

/-- The outer loop over `package_name_to_deps` (create_spdx_sbom.py
lines 687-714). -/
def transLoop (api : List (String × String)) :
    List (String × List String) → List String → List SpdxRel
  | [], _ => []
  | (pn, ds) :: rest, processed =>
      match lookupAssoc api pn with
      | none => transLoop api rest processed
      | some pid =>
          let r := childLoop api pid ds processed
          r.1 ++ transLoop api rest r.2

/-- The synthetic application package ID
`SPDXRef-Application-{project_uuid}-{document_uuid}`
(create_spdx_sbom.py lines 510-511). -/
def convAppId (project_uuid document_uuid : String) : String :=
  "SPDXRef-Application-" ++ project_uuid ++ "-" ++ document_uuid

/-- The component-loop result of a conversion run; the used-ID set starts
holding the application ID (create_spdx_sbom.py line 571). -/
def convState (components : List Component) (appId : String) : CompState :=
  processComponents components [appId]

/-- The `api_name_to_spdxid` dict of a conversion run. -/
def convApi (components : List Component) (appId : String)
    (deps : List DepInfo) : List (String × String) :=
  buildApiMap (convState components appId).table deps

/-- The dependency relationships of a conversion run: empty without
dependency metadata, else the direct pairs followed by the transitive pairs
(create_spdx_sbom.py lines 641-714). -/
def convRelsTail (components : List Component) (appId : String) :
    Option DepMetadata → List SpdxRel
  | none => []
  | some md =>
      directRels (convApi components appId md.dependencies) appId
          md.direct_dependencies ++
        transLoop (convApi components appId md.dependencies)
          md.package_name_to_deps []

/-- The full relationship list of a conversion run: the DESCRIBES record
(lines 574-578) followed by the dependency pairs. -/
def convRels (components : List Component) (appId : String)
    (dm : Option DepMetadata) : List SpdxRel :=
  ⟨"SPDXRef-DOCUMENT", appId, "DESCRIBES"⟩ :: convRelsTail components appId dm

/-- Model of `convert_cyclonedx_to_spdx` (create_spdx_sbom.py lines
486-719).  The fetched/derived inputs (component list, dependency metadata,
uuids, current time) are explicit parameters. -/
def convert_cyclonedx_to_spdx (components : List Component)
    (dm : Option DepMetadata)
    (ns organization person_email project_uuid document_uuid now : String)
    (project_name : Option String) : SpdxDoc :=
  let appId := convAppId project_uuid document_uuid
  let display_name := project_name.getD (ns ++ " Application")
  let mainPkg : SpdxPackage :=
    { SPDXID := appId,
      name := ns ++ " Application",
      versionInfo := "1.0.0",
      supplier := "Organization: " ++ organization,
      downloadLocation := "NOASSERTION",
      licenseConcluded := "NOASSERTION",
      licenseDeclared := "NOASSERTION" }
  { SPDXID := "SPDXRef-DOCUMENT",
    spdxVersion := "SPDX-2.3",
    creationInfo :=
      { created := now,
        creators := ["Organization: " ++ organization,
          "Tool: Endor Labs CS tool", "Person: " ++ person_email] },
    name := "SBOM for " ++ display_name ++ " (" ++ project_uuid ++ ")",
    dataLicense := "CC0-1.0",
    documentNamespace :=
      "https://api.endorlabs.com/spdx/documents/" ++ document_uuid,
    documentDescribes := [appId],
    packages := mainPkg :: (convState components appId).packages,
    relationships := some (convRels components appId dm) }

/-- Model of `is_test_dependency` (remove_test_dependencies.py lines
310-321): exact name match, or `name@version` match. -/
def is_test_dependency (package_name package_version : String)
    (test_dependencies : List String) : Bool :=
  test_dependencies.contains package_name ||
    test_dependencies.contains (package_name ++ "@" ++ package_version)

/-- The `packages_to_remove` ID set (remove_test_dependencies.py lines
346-354): IDs of all packages matching the exclusion set. -/
def packagesToRemove (doc : SpdxDoc) (test_dependencies : List String) :
    List String :=
  (doc.packages.filter
    (fun p => is_test_dependency p.name p.versionInfo test_dependencies)).map
    (·.SPDXID)

/-- The surviving package list (remove_test_dependencies.py lines 357-360). -/
def prunedPackages (doc : SpdxDoc) (test_dependencies : List String) :
    List SpdxPackage :=
  doc.packages.filter
    (fun p => !((packagesToRemove doc test_dependencies).contains p.SPDXID))

/-- The surviving relationship list (remove_test_dependencies.py lines
364-383): drop relationships touching a removed package, then drop any
relationship with an endpoint outside the surviving package IDs plus the
document root. -/
def prunedRels (doc : SpdxDoc) (test_dependencies : List String) :
    Option (List SpdxRel) :=
  match doc.relationships with
  | none => none
  | some rs =>
      let rs1 := rs.filter (fun r =>
        !((packagesToRemove doc test_dependencies).contains r.spdxElementId) &&
        !((packagesToRemove doc test_dependencies).contains r.relatedSpdxElement))
      let existing := "SPDXRef-DOCUMENT" ::
        (prunedPackages doc test_dependencies).map (·.SPDXID)
      some (rs1.filter (fun r =>
        existing.contains r.spdxElementId &&
        existing.contains r.relatedSpdxElement))

/-- The rewritten creators list (remove_test_dependencies.py lines 390-402):
when an organization or person is supplied, existing Organization/Person
entries are dropped and the supplied ones appended. -/
def prunedCreators (doc : SpdxDoc)
    (organization_name person_email : Option String) : List String :=
  if organization_name.isSome || person_email.isSome then
    let base := doc.creationInfo.creators.filter (fun c =>
      !(c.startsWith "Organization:") && !(c.startsWith "Person:"))
    let withOrg :=
      match organization_name with
      | some o => base ++ ["Organization: " ++ o]
      | none => base
    match person_email with
    | some p => withOrg ++ ["Person: " ++ p]
    | none => withOrg
  else doc.creationInfo.creators

/-- Model of `remove_test_dependencies` (remove_test_dependencies.py lines
323-404).  The Python function deep-copies its input and mutates only the
copy; here the copy is the returned value.  `now` stands for the refreshed
creation timestamp. -/
def remove_test_dependencies (spdx_sbom : SpdxDoc)
    (test_dependencies : List String)
    (organization_name person_email : Option String) (now : String) : SpdxDoc :=
  if test_dependencies.isEmpty then spdx_sbom
  else
    { spdx_sbom with
      packages := prunedPackages spdx_sbom test_dependencies,
      relationships := prunedRels spdx_sbom test_dependencies,
      creationInfo :=
        { created := now,
          creators := prunedCreators spdx_sbom organization_name person_email } }

/-- The package IDs present in a document. -/
def docPackageIds (doc : SpdxDoc) : List String := doc.packages.map (·.SPDXID)

/-- Boolean referential-integrity check: every relationship endpoint is the
document root ID or the ID of a package in the document's package list. -/
def relEndpointsOKb (doc : SpdxDoc) : Bool :=
  (doc.relationships.getD []).all (fun r =>
    ("SPDXRef-DOCUMENT" :: docPackageIds doc).contains r.spdxElementId &&
    ("SPDXRef-DOCUMENT" :: docPackageIds doc).contains r.relatedSpdxElement)

/-- The (source, target) pair of a DEPENDS_ON record, `none` otherwise. -/
def depOnKey (r : SpdxRel) : Option (String × String) :=
  if r.relationshipType = "DEPENDS_ON" then
    some (r.spdxElementId, r.relatedSpdxElement)
  else none

/-- The (source, target) pair of a DEPENDENCY_OF record, `none` otherwise. -/
def depOfKey (r : SpdxRel) : Option (String × String) :=
  if r.relationshipType = "DEPENDENCY_OF" then
    some (r.spdxElementId, r.relatedSpdxElement)
  else none

/-- Input document for the C1 counterexample: no packages, but a
relationship between two non-existent elements. -/
def c1Doc : SpdxDoc :=
  ⟨"SPDXRef-DOCUMENT", "SPDX-2.3", ⟨"t0", []⟩, "doc", "CC0-1.0", "dn", [], [],
    some [⟨"SPDXRef-Package-a", "SPDXRef-Package-b", "DEPENDS_ON"⟩]⟩

/-- Input document for the C3 witness: an application package and a test
package, with a DESCRIBES and a DEPENDS_ON relationship. -/
def c3Doc : SpdxDoc :=
  ⟨"SPDXRef-DOCUMENT", "SPDX-2.3", ⟨"t0", []⟩, "doc", "CC0-1.0", "dn",
    ["SPDXRef-A"],
    [⟨"SPDXRef-A", "app", "1", "s", "d", "l", "l"⟩,
     ⟨"SPDXRef-T", "testlib", "2", "s", "d", "l", "l"⟩],
    some [⟨"SPDXRef-DOCUMENT", "SPDXRef-A", "DESCRIBES"⟩,
          ⟨"SPDXRef-A", "SPDXRef-T", "DEPENDS_ON"⟩]⟩

/-- The test package of `c3Doc`. -/
def c3Pkg : SpdxPackage := ⟨"SPDXRef-T", "testlib", "2", "s", "d", "l", "l"⟩

/-- Input document for the C6 counterexample: `documentDescribes` points at
the only package, which matches the exclusion set. -/
def c6Doc : SpdxDoc :=
  ⟨"SPDXRef-DOCUMENT", "SPDX-2.3", ⟨"t0", []⟩, "doc", "CC0-1.0", "dn",
    ["SPDXRef-Package-app-1"],
    [⟨"SPDXRef-Package-app-1", "app", "1", "s", "d", "l", "l"⟩],
    some []⟩

/-- Input document for the C10 witness. -/
def c10Doc : SpdxDoc :=
  ⟨"SPDXRef-DOCUMENT", "SPDX-2.3", ⟨"t0", ["Tool: x"]⟩, "doc", "CC0-1.0", "dn",
    ["SPDXRef-A"],
    [⟨"SPDXRef-A", "app", "1", "s", "d", "l", "l"⟩],
    some [⟨"SPDXRef-DOCUMENT", "SPDXRef-A", "DESCRIBES"⟩]⟩

/-- Component for the C4 counterexample: no `supplier` key, but a
`publisher` key. -/
def c4Comp : Component :=
  ⟨some "libx", some "1.0", none, some "Acme Corp", none, none, []⟩

/-- Boolean pair-symmetry check: every DEPENDS_ON record has the swapped
DEPENDENCY_OF record in the list and vice versa. -/
def pairSymB (l : List SpdxRel) : Bool :=
  l.all (fun r =>
    (if r.relationshipType == "DEPENDS_ON" then
      l.contains ⟨r.relatedSpdxElement, r.spdxElementId, "DEPENDENCY_OF"⟩
    else true) &&
    (if r.relationshipType == "DEPENDENCY_OF" then
      l.contains ⟨r.relatedSpdxElement, r.spdxElementId, "DEPENDS_ON"⟩
    else true))

/-- Component for the C5 counterexample. -/
def c5Comp : Component := ⟨some "a", some "1", none, none, none, none, []⟩

/-- Dependency edge for the C5 counterexample: resolvable, parent absent,
not flagged direct. -/
def c5Dep : DepInfo := ⟨"pypi://a@1", "pypi://a", "1", false, ""⟩

/-- Components for the C5 witness: a parent package and a child package. -/
def c5wComps : List Component :=
  [⟨some "p", some "1", none, none, none, none, []⟩,
   ⟨some "ch", some "1", none, none, none, none, []⟩]

/-- Edges for the C5 witness: `p` is a direct dependency; `ch` is a
transitive dependency of `p`. -/
def c5wObjs : List DepInfo :=
  [⟨"pypi://p@1", "pypi://p", "1", true, ""⟩,
   ⟨"pypi://ch@1", "pypi://ch", "1", false, "pypi://p@1"⟩]

/-- The converted relationship list of the C5 witness scenario. -/
def c5wRels : List SpdxRel :=
  (convert_cyclonedx_to_spdx c5wComps (some (buildMetadata c5wObjs)) "ns"
    "org" "pe" "pu" "du" "t" none).relationships.getD []

/-- Component for the C9 counterexample. -/
def c9Comp : Component := ⟨some "a", some "1.0", none, none, none, none, []⟩

/-- Two direct dependency edges with distinct full names that normalize to
the same `a@1.0` key. -/
def c9Objs : List DepInfo :=
  [⟨"pypi://a@1.0", "pypi://a", "1.0", true, ""⟩,
   ⟨"npm://a@1.0", "npm://a", "1.0", true, ""⟩]

/-- Component and edge for the C9 witness. -/
def c9wObjs : List DepInfo := [⟨"pypi://a@1.0", "pypi://a", "1.0", true, ""⟩]

theorem toDigitsRev_eq_digits (fuel n : Nat) (h : n ≤ fuel) :
    toDigitsRev fuel n = Nat.digits 10 n := by
  induction fuel generalizing n with
  | zero =>
      interval_cases n
      simp [toDigitsRev]
  | succ fuel ih =>
      by_cases hn : n = 0
      · simp [toDigitsRev, hn]
      · rw [toDigitsRev, if_neg hn,
          Nat.digits_def' (b := 10) (by norm_num) (Nat.pos_of_ne_zero hn),
          ih (n / 10) ?_]
        have : n / 10 < n := Nat.div_lt_self (Nat.pos_of_ne_zero hn) (by norm_num)
        omega

theorem digitChar_inj :
    ∀ d < 10, ∀ e < 10, digitChar d = digitChar e → d = e := by decide

theorem map_digitChar_inj : ∀ l1 l2 : List Nat, (∀ d ∈ l1, d < 10) →
    (∀ d ∈ l2, d < 10) → l1.map digitChar = l2.map digitChar → l1 = l2 := by
  intro l1
  induction l1 with
  | nil => intro l2 _ _ h; cases l2 <;> simp_all
  | cons a l1 ih =>
      intro l2 h1 h2 h
      cases l2 with
      | nil => simp at h
      | cons b l2 =>
          simp only [List.map_cons, List.cons.injEq] at h
          have hab : a = b :=
            digitChar_inj a (h1 a (by simp)) b (h2 b (by simp)) h.1
          have : l1 = l2 := ih l2 (fun d hd => h1 d (by simp [hd]))
            (fun d hd => h2 d (by simp [hd])) h.2
          simp [hab, this]

theorem natToStr_eq_digits (k : Nat) (hk : k ≠ 0) :
    natToStr k = String.mk ((Nat.digits 10 k).reverse.map digitChar) := by
  rw [natToStr, if_neg hk, toDigitsRev_eq_digits k k le_rfl]

theorem digits_ne_zero_of_string (n : Nat)
    (h : String.mk ((Nat.digits 10 n).reverse.map digitChar) = "0") : n = 0 := by
  have hdata : (Nat.digits 10 n).reverse.map digitChar = ['0'] :=
    congrArg String.data h
  have hrev : (Nat.digits 10 n).map digitChar = ['0'] := by
    have := congrArg List.reverse hdata
    simpa [List.map_reverse] using this
  have hds : Nat.digits 10 n = [0] := by
    refine map_digitChar_inj (Nat.digits 10 n) [0]
      (fun d hd => Nat.digits_lt_base (by norm_num) hd) (by simp) ?_
    simpa [digitChar] using hrev
  have := Nat.ofDigits_digits 10 n
  rw [hds] at this
  simpa [Nat.ofDigits] using this.symm

theorem natToStr_inj {m n : Nat} (h : natToStr m = natToStr n) : m = n := by
  by_cases hm : m = 0 <;> by_cases hn : n = 0
  · omega
  · exfalso
    rw [hm, natToStr_eq_digits n hn] at h
    have : natToStr 0 = "0" := by decide
    exact hn (digits_ne_zero_of_string n (h.symm.trans this))
  · exfalso
    rw [hn, natToStr_eq_digits m hm] at h
    have : natToStr 0 = "0" := by decide
    exact hm (digits_ne_zero_of_string m (h.trans this))
  · rw [natToStr_eq_digits m hm, natToStr_eq_digits n hn] at h
    have hdata : (Nat.digits 10 m).reverse.map digitChar
        = (Nat.digits 10 n).reverse.map digitChar := congrArg String.data h
    have hds := map_digitChar_inj _ _
      (fun d hd => Nat.digits_lt_base (by norm_num) (List.mem_reverse.mp hd))
      (fun d hd => Nat.digits_lt_base (by norm_num) (List.mem_reverse.mp hd))
      hdata
    have heq : Nat.digits 10 m = Nat.digits 10 n := List.reverse_injective hds
    calc m = Nat.ofDigits 10 (Nat.digits 10 m) := (Nat.ofDigits_digits 10 m).symm
      _ = Nat.ofDigits 10 (Nat.digits 10 n) := by rw [heq]
      _ = n := Nat.ofDigits_digits 10 n

theorem counterCand_inj {base : String} {j k : Nat}
    (h : counterCand base j = counterCand base k) : j = k := by
  have hdata := congrArg String.data h
  simp only [counterCand, String.data_append] at hdata
  have := List.append_cancel_left hdata
  exact natToStr_inj (String.ext this)

/-- Pigeonhole: among `used.length + 1` candidate identifiers with counters
`1, …, used.length + 1` at least one is not in `used`. -/
theorem exists_free_cand (base : String) (used : List String) :
    ∃ j, 1 ≤ j ∧ j < 1 + (used.length + 1) ∧ counterCand base j ∉ used := by
  by_contra hall
  push_neg at hall
  have hmem : ∀ j ∈ Finset.Icc 1 (used.length + 1),
      counterCand base j ∈ used.toFinset := by
    intro j hj
    rw [Finset.mem_Icc] at hj
    exact List.mem_toFinset.mpr (hall j hj.1 (by omega))
  have hinj : Set.InjOn (counterCand base) ↑(Finset.Icc 1 (used.length + 1)) :=
    fun a _ b _ hab => counterCand_inj hab
  have hcard := Finset.card_le_card_of_injOn (counterCand base) hmem hinj
  rw [Nat.card_Icc] at hcard
  have := List.toFinset_card_le used
  omega

theorem findFreeLoop_not_mem (base : String) (used : List String) :
    ∀ fuel k, (∃ j, k ≤ j ∧ j < k + fuel ∧ counterCand base j ∉ used) →
    findFreeLoop base used fuel k ∉ used := by
  intro fuel
  induction fuel with
  | zero => intro k ⟨j, h1, h2, _⟩; omega
  | succ fuel ih =>
      intro k ⟨j, h1, h2, h3⟩
      rw [findFreeLoop]
      by_cases hk : counterCand base k ∈ used
      · rw [if_pos hk]
        refine ih (k + 1) ⟨j, ?_, by omega, h3⟩
        rcases Nat.eq_or_lt_of_le h1 with heq | hlt
        · exact absurd hk (heq ▸ h3)
        · omega
      · rw [if_neg hk]; exact hk

/-- The generated identifier is never one of the already-used identifiers. -/
theorem generate_unique_spdx_id_not_mem (name ver : String)
    (used : List String) : generate_unique_spdx_id name ver used ∉ used := by
  rw [generate_unique_spdx_id]
  by_cases hb : spdxBaseId name ver ∈ used
  · simp only [if_pos hb]
    exact findFreeLoop_not_mem _ used (used.length + 1) 1
      (exists_free_cand _ used)
  · simp only [if_neg hb]
    exact hb

theorem noColon_append {a b : String} (ha : NoColon a) (hb : NoColon b) :
    NoColon (a ++ b) := by
  intro c hc
  rw [String.data_append, List.mem_append] at hc
  rcases hc with hc | hc
  · exact ha c hc
  · exact hb c hc

theorem mem_collapseHyphens {c : Char} :
    ∀ l : List Char, c ∈ collapseHyphens l → c ∈ l := by
  intro l
  induction l with
  | nil => simp [collapseHyphens]
  | cons a rest ih =>
      cases rest with
      | nil => simp [collapseHyphens]
      | cons b rest' =>
          rw [collapseHyphens]
          intro h
          by_cases hab : a = '-' ∧ b = '-'
          · rw [if_pos hab] at h
            exact List.mem_cons_of_mem a (ih h)
          · rw [if_neg hab] at h
            rcases List.mem_cons.mp h with h | h
            · exact h ▸ List.mem_cons_self a _
            · exact List.mem_cons_of_mem a (ih h)

theorem mem_stripHyphens {c : Char} {l : List Char}
    (h : c ∈ stripHyphens l) : c ∈ l := by
  rw [stripHyphens, List.mem_reverse] at h
  have h1 := (List.dropWhile_sublist (l := (l.dropWhile (· = '-')).reverse)
    (p := (· = '-'))).mem h
  rw [List.mem_reverse] at h1
  exact (List.dropWhile_sublist (l := l) (p := (· = '-'))).mem h1

theorem noColon_sanitize (s : String) : NoColon (sanitize s) := by
  intro c hc
  have hc' : c ∈ (s.data.map replChar) :=
    mem_collapseHyphens _ (mem_stripHyphens hc)
  rcases List.mem_map.mp hc' with ⟨d, _, hd⟩
  rw [replChar] at hd
  by_cases hda : d.isAlphanum
  · rw [if_pos hda] at hd
    intro h
    rw [h] at hd
    rw [hd] at hda
    simp at hda
  · rw [if_neg hda] at hd
    rw [← hd]
    decide

theorem noColon_natToStr (n : Nat) : NoColon (natToStr n) := by
  intro c hc
  rw [natToStr] at hc
  by_cases hn : n = 0
  · rw [if_pos hn] at hc
    simp only [String.data] at hc
    rcases List.mem_singleton.mp hc
    decide
  · rw [if_neg hn] at hc
    rcases List.mem_map.mp hc with ⟨d, _, hd⟩
    rw [← hd]
    unfold digitChar
    split <;> decide

theorem noColon_counterCand {base : String} (hb : NoColon base) (k : Nat) :
    NoColon (counterCand base k) :=
  noColon_append (noColon_append hb (by decide)) (noColon_natToStr k)

theorem noColon_findFreeLoop {base : String} (hb : NoColon base)
    (used : List String) :
    ∀ fuel k, NoColon (findFreeLoop base used fuel k) := by
  intro fuel
  induction fuel with
  | zero => intro k; exact noColon_counterCand hb k
  | succ fuel ih =>
      intro k
      rw [findFreeLoop]
      by_cases h : counterCand base k ∈ used
      · rw [if_pos h]; exact ih (k + 1)
      · rw [if_neg h]; exact noColon_counterCand hb k

theorem noColon_spdxBaseId (name ver : String) : NoColon (spdxBaseId name ver) := by
  have hlit : NoColon "SPDXRef-Package-" := by decide
  have hdash : NoColon "-" := by decide
  rw [spdxBaseId]
  split <;> split <;>
    first
      | exact noColon_append hlit (noColon_sanitize name)
      | exact noColon_append (noColon_append (noColon_append hlit
          (noColon_sanitize name)) hdash) (noColon_sanitize ver)
      | exact noColon_append (noColon_append (noColon_append hlit
          (noColon_sanitize name)) hdash) (by decide)

theorem noColon_generate (name ver : String) (used : List String) :
    NoColon (generate_unique_spdx_id name ver used) := by
  rw [generate_unique_spdx_id]
  split
  · exact noColon_findFreeLoop (noColon_spdxBaseId name ver) used _ 1
  · exact noColon_spdxBaseId name ver

theorem natToStr_one : natToStr 1 = "1" := by decide

theorem natToStr_twelve : natToStr 12 = "12" := by decide

theorem sanitize_example : sanitize "Foo/Bar!!baz" = "Foo-Bar-baz" := by decide

theorem contains_iff_mem {α} [BEq α] [LawfulBEq α] {l : List α} {a : α} :
    l.contains a = true ↔ a ∈ l := List.elem_iff

theorem prune_empty (doc : SpdxDoc) (o p : Option String) (t : String) :
    remove_test_dependencies doc [] o p t = doc := by
  rw [remove_test_dependencies]
  rfl

theorem prune_nonEmpty (doc : SpdxDoc) {S : List String} (hS : S ≠ [])
    (o p : Option String) (t : String) :
    remove_test_dependencies doc S o p t =
      { doc with
        packages := prunedPackages doc S,
        relationships := prunedRels doc S,
        creationInfo := { created := t, creators := prunedCreators doc o p } } := by
  rw [remove_test_dependencies, if_neg]
  simp [List.isEmpty_iff, hS]

/-- Every surviving relationship endpoint is the document root or a
surviving package ID (the second filter pass of the pruner). -/
theorem prunedRels_endpoints (doc : SpdxDoc) (S : List String) :
    ∀ rel ∈ (prunedRels doc S).getD [],
      rel.spdxElementId ∈
        "SPDXRef-DOCUMENT" :: (prunedPackages doc S).map (·.SPDXID) ∧
      rel.relatedSpdxElement ∈
        "SPDXRef-DOCUMENT" :: (prunedPackages doc S).map (·.SPDXID) := by
  intro rel hrel
  rw [prunedRels] at hrel
  cases hdr : doc.relationships with
  | none => rw [hdr] at hrel; simp at hrel
  | some rs =>
      rw [hdr] at hrel
      simp only [Option.getD_some] at hrel
      have h2 := (List.mem_filter.mp hrel).2
      rw [Bool.and_eq_true] at h2
      exact ⟨contains_iff_mem.mp h2.1, contains_iff_mem.mp h2.2⟩

/-- No surviving relationship endpoint is the ID of a removed package (the
first filter pass of the pruner). -/
theorem prunedRels_avoid_removed (doc : SpdxDoc) (S : List String) :
    ∀ rel ∈ (prunedRels doc S).getD [],
      ¬ ((packagesToRemove doc S).contains rel.spdxElementId = true) ∧
      ¬ ((packagesToRemove doc S).contains rel.relatedSpdxElement = true) := by
  intro rel hrel
  rw [prunedRels] at hrel
  cases hdr : doc.relationships with
  | none => rw [hdr] at hrel; simp at hrel
  | some rs =>
      rw [hdr] at hrel
      simp only [Option.getD_some] at hrel
      have h1 := (List.mem_filter.mp (List.mem_filter.mp hrel).1).2
      rw [Bool.and_eq_true] at h1
      constructor
      · intro hc; rw [hc] at h1; simp at h1
      · intro hc; rw [hc] at h1
        rcases h1 with ⟨_, h1b⟩
        simp at h1b

/-- A matched package's ID is in the removed-ID set. -/
theorem mem_packagesToRemove {doc : SpdxDoc} {S : List String}
    {pkg : SpdxPackage} (hmem : pkg ∈ doc.packages)
    (hmatch : is_test_dependency pkg.name pkg.versionInfo S = true) :
    pkg.SPDXID ∈ packagesToRemove doc S := by
  rw [packagesToRemove]
  exact List.mem_map.mpr ⟨pkg, List.mem_filter.mpr ⟨hmem, hmatch⟩, rfl⟩

theorem mkPackage_SPDXID (c : Component) (id : String) :
    (mkPackage c id).SPDXID = id := rfl

theorem lookupAssoc_mem {m : List (String × String)} {k v : String}
    (h : lookupAssoc m k = some v) : ∃ e ∈ m, e.1 = k ∧ e.2 = v := by
  rw [lookupAssoc] at h
  cases hf : m.find? (fun e => e.1 == k) with
  | none => rw [hf] at h; simp at h
  | some e =>
      rw [hf] at h
      simp only [Option.map] at h
      refine ⟨e, List.mem_of_find?_eq_some hf, ?_, by simpa using h⟩
      have := List.find?_some hf
      simpa using this

/-- Every table value recorded by the component loop is the SPDX ID of an
emitted package. -/
theorem processComponents_table_sub (cs : List Component) (used : List String) :
    ∀ e ∈ (processComponents cs used).table,
      e.2 ∈ (processComponents cs used).packages.map (·.SPDXID) := by
  induction cs generalizing used with
  | nil => intro e he; simp [processComponents] at he
  | cons c rest ih =>
      intro e he
      rw [processComponents] at he ⊢
      simp only [List.mem_append, List.mem_singleton] at he
      rcases he with he | he
      · have := ih (generate_unique_spdx_id (c.name.getD "Unknown Component")
          (c.version.getD "0.0.0") used :: used) e he
        simp only [List.map_cons, List.mem_cons]
        exact Or.inr this
      · simp [List.map_cons, List.mem_cons, he, mkPackage_SPDXID]

/-- The IDs emitted by the component loop avoid the incoming used set and
are pairwise distinct. -/
theorem processComponents_ids (cs : List Component) (used : List String) :
    (∀ p ∈ (processComponents cs used).packages, p.SPDXID ∉ used) ∧
    ((processComponents cs used).packages.map (·.SPDXID)).Nodup := by
  induction cs generalizing used with
  | nil => exact ⟨by intro p hp; simp [processComponents] at hp,
      by simp [processComponents]⟩
  | cons c rest ih =>
      set id := generate_unique_spdx_id (c.name.getD "Unknown Component")
        (c.version.getD "0.0.0") used with hid
      have hfresh : id ∉ used := generate_unique_spdx_id_not_mem _ _ used
      have ihh := ih (id :: used)
      constructor
      · intro p hp
        rw [processComponents] at hp
        simp only [List.mem_cons] at hp
        rcases hp with hp | hp
        · rw [hp, mkPackage_SPDXID]; exact hfresh
        · have := ihh.1 p hp
          intro hc; exact this (List.mem_cons_of_mem id hc)
      · rw [processComponents]
        simp only [List.map_cons, mkPackage_SPDXID]
        refine List.Nodup.cons ?_ ihh.2
        intro hc
        rcases List.mem_map.mp hc with ⟨p, hp, hpid⟩
        exact ihh.1 p hp (hpid ▸ List.mem_cons_self id used)

/-- Every ID emitted by the component loop is colon-free. -/
theorem processComponents_noColon (cs : List Component) (used : List String) :
    ∀ p ∈ (processComponents cs used).packages, NoColon p.SPDXID := by
  induction cs generalizing used with
  | nil => intro p hp; simp [processComponents] at hp
  | cons c rest ih =>
      intro p hp
      rw [processComponents] at hp
      simp only [List.mem_cons] at hp
      rcases hp with hp | hp
      · rw [hp, mkPackage_SPDXID]; exact noColon_generate _ _ _
      · exact ih _ p hp

/-- Every entry of the `api_name_to_spdxid` dict stores the resolution of
its own key. -/
theorem buildApiMap_entry (table : List (String × String)) :
    ∀ deps : List DepInfo, ∀ e ∈ buildApiMap table deps,
      resolveDep table e.1 = some e.2 := by
  intro deps
  induction deps with
  | nil => intro e he; simp [buildApiMap] at he
  | cons d rest ih =>
      intro e he
      rw [buildApiMap] at he
      cases hr : resolveDep table d.name with
      | none => rw [hr] at he; exact ih e he
      | some v =>
          rw [hr] at he
          rcases List.mem_append.mp he with he | he
          · exact ih e he
          · rcases List.mem_singleton.mp he with rfl
            exact hr

/-- A hit in the `api_name_to_spdxid` dict is the resolution through the
component table. -/
theorem apiLookup_resolves {table : List (String × String)}
    {deps : List DepInfo} {fn v : String}
    (h : lookupAssoc (buildApiMap table deps) fn = some v) :
    resolveDep table fn = some v := by
  rcases lookupAssoc_mem h with ⟨e, he, hk, hv⟩
  have := buildApiMap_entry table deps e he
  rw [hk, hv] at this
  exact this

/-- A dependency record whose full name resolves through the component
table produces a hit in the `api_name_to_spdxid` dict. -/
theorem apiLookup_of_mem {table : List (String × String)}
    {deps : List DepInfo} {d : DepInfo} {v : String} (hd : d ∈ deps)
    (h : resolveDep table d.name = some v) :
    lookupAssoc (buildApiMap table deps) d.name = some v := by
  induction deps with
  | nil => simp at hd
  | cons d' rest ih =>
      have hall : ∀ e ∈ buildApiMap table rest, e.1 = d.name → e.2 = v := by
        intro e he hk
        have := buildApiMap_entry table rest e he
        rw [hk, h] at this
        exact (Option.some_inj.mp this).symm
      rcases List.mem_cons.mp hd with rfl | hmem
      · rw [buildApiMap, h, lookupAssoc, List.find?_append]
        cases hf : (buildApiMap table rest).find? (fun e => e.1 == d.name) with
        | some e =>
            have hk : e.1 = d.name := by simpa using List.find?_some hf
            have := hall e (List.mem_of_find?_eq_some hf) hk
            simp [Option.or, this]
        | none => simp [Option.or]
      · have := ih hmem
        rw [buildApiMap]
        cases hr : resolveDep table d'.name with
        | none => exact this
        | some w =>
            rw [lookupAssoc, List.find?_append]
            rw [lookupAssoc] at this
            cases hf : (buildApiMap table rest).find? (fun e => e.1 == d.name) with
            | some e => rw [hf] at this; simp [Option.or, ← this]
            | none => rw [hf] at this; simp at this

/-- Endpoints of relationships emitted by the direct-dependency loop: the
application ID and values of the `api_name_to_spdxid` dict. -/
theorem directRels_endpoints {api : List (String × String)} {appId : String}
    {ids : List String} (happ : appId ∈ ids)
    (hval : ∀ fn v, lookupAssoc api fn = some v → v ∈ ids) :
    ∀ ds : List String, ∀ r ∈ directRels api appId ds,
      r.spdxElementId ∈ ids ∧ r.relatedSpdxElement ∈ ids := by
  intro ds
  induction ds with
  | nil => intro r hr; simp [directRels] at hr
  | cons dn rest ih =>
      intro r hr
      cases hl : lookupAssoc api dn with
      | none =>
          simp only [directRels, hl] at hr
          exact ih r hr
      | some did =>
          simp only [directRels, hl] at hr
          have hd : did ∈ ids := hval dn did hl
          rcases List.mem_cons.mp hr with rfl | hr
          · exact ⟨happ, hd⟩
          · rcases List.mem_cons.mp hr with rfl | hr
            · exact ⟨hd, happ⟩
            · exact ih r hr

/-- Endpoints of relationships emitted by the inner transitive loop. -/
theorem childLoop_endpoints {api : List (String × String)} {pid : String}
    {ids : List String} (hpid : pid ∈ ids)
    (hval : ∀ fn v, lookupAssoc api fn = some v → v ∈ ids) :
    ∀ (ds processed : List String), ∀ r ∈ (childLoop api pid ds processed).1,
      r.spdxElementId ∈ ids ∧ r.relatedSpdxElement ∈ ids := by
  intro ds
  induction ds with
  | nil => intro processed r hr; simp [childLoop] at hr
  | cons dn rest ih =>
      intro processed r hr
      cases hl : lookupAssoc api dn with
      | none =>
          simp only [childLoop, hl] at hr
          exact ih processed r hr
      | some cid =>
          have hc : cid ∈ ids := hval dn cid hl
          by_cases hk : (pid ++ ":" ++ cid) ∈ processed
          · simp only [childLoop, hl, if_pos hk] at hr
            exact ih processed r hr
          · simp only [childLoop, hl, if_neg hk] at hr
            rcases List.mem_cons.mp hr with rfl | hr
            · exact ⟨hpid, hc⟩
            · rcases List.mem_cons.mp hr with rfl | hr
              · exact ⟨hc, hpid⟩
              · exact ih _ r hr

/-- Endpoints of relationships emitted by the transitive loop. -/
theorem transLoop_endpoints {api : List (String × String)} {ids : List String}
    (hval : ∀ fn v, lookupAssoc api fn = some v → v ∈ ids) :
    ∀ (entries : List (String × List String)) (processed : List String),
      ∀ r ∈ transLoop api entries processed,
        r.spdxElementId ∈ ids ∧ r.relatedSpdxElement ∈ ids := by
  intro entries
  induction entries with
  | nil => intro processed r hr; simp [transLoop] at hr
  | cons e rest ih =>
      intro processed r hr
      rcases e with ⟨pn, ds⟩
      cases hl : lookupAssoc api pn with
      | none =>
          simp only [transLoop, hl] at hr
          exact ih processed r hr
      | some pid =>
          simp only [transLoop, hl] at hr
          rcases List.mem_append.mp hr with hr | hr
          · exact childLoop_endpoints (hval pn pid hl) hval ds processed r hr
          · exact ih _ r hr

/-- Every value of the conversion run's `api_name_to_spdxid` dict is the ID
of an emitted component package. -/
theorem convApi_values {components : List Component} {appId : String}
    {deps : List DepInfo} {fn v : String}
    (h : lookupAssoc (convApi components appId deps) fn = some v) :
    v ∈ (convState components appId).packages.map (·.SPDXID) := by
  have hres := apiLookup_resolves (show lookupAssoc
    (buildApiMap (convState components appId).table deps) fn = some v from h)
  rw [resolveDep] at hres
  cases hk : depKey fn with
  | none => rw [hk] at hres; simp at hres
  | some key =>
      rw [hk] at hres
      rcases lookupAssoc_mem (show lookupAssoc
          (convState components appId).table key = some v from hres)
        with ⟨e, he, _, hv⟩
      exact hv ▸ processComponents_table_sub components [appId] e he

/-- Endpoints of the relationship list of a conversion run: the document
root, the application package, or an emitted component package. -/
theorem convRels_endpoints (components : List Component) (appId : String)
    (dm : Option DepMetadata) :
    ∀ r ∈ convRels components appId dm,
      r.spdxElementId ∈ "SPDXRef-DOCUMENT" :: appId ::
        (convState components appId).packages.map (·.SPDXID) ∧
      r.relatedSpdxElement ∈ "SPDXRef-DOCUMENT" :: appId ::
        (convState components appId).packages.map (·.SPDXID) := by
  intro r hr
  rw [convRels] at hr
  rcases List.mem_cons.mp hr with rfl | hr
  · exact ⟨List.mem_cons_self _ _,
      List.mem_cons_of_mem _ (List.mem_cons_self _ _)⟩
  cases dm with
  | none => simp [convRelsTail] at hr
  | some md =>
      rw [convRelsTail] at hr
      have hval : ∀ fn v,
          lookupAssoc (convApi components appId md.dependencies) fn = some v →
          v ∈ "SPDXRef-DOCUMENT" :: appId ::
            (convState components appId).packages.map (·.SPDXID) := by
        intro fn v hv
        exact List.mem_cons_of_mem _ (List.mem_cons_of_mem _ (convApi_values hv))
      have happ : appId ∈ "SPDXRef-DOCUMENT" :: appId ::
          (convState components appId).packages.map (·.SPDXID) :=
        List.mem_cons_of_mem _ (List.mem_cons_self _ _)
      rcases List.mem_append.mp hr with hr | hr
      · exact directRels_endpoints happ hval md.direct_dependencies r hr
      · exact transLoop_endpoints hval md.package_name_to_deps [] r hr

/-- Referential integrity of a freshly converted document: every
relationship endpoint is the document root or a package of the document. -/
theorem convert_integrity (components : List Component)
    (dm : Option DepMetadata)
    (ns organization person_email project_uuid document_uuid now : String)
    (project_name : Option String) :
    relEndpointsOKb (convert_cyclonedx_to_spdx components dm ns organization
      person_email project_uuid document_uuid now project_name) = true := by
  rw [relEndpointsOKb, List.all_eq_true]
  intro r hr
  have hr' : r ∈ convRels components (convAppId project_uuid document_uuid) dm :=
    hr
  have hmem := convRels_endpoints components (convAppId project_uuid document_uuid)
    dm r hr'
  have hids : ("SPDXRef-DOCUMENT" :: docPackageIds (convert_cyclonedx_to_spdx
      components dm ns organization person_email project_uuid document_uuid now
      project_name)) = "SPDXRef-DOCUMENT" :: convAppId project_uuid document_uuid ::
      (convState components (convAppId project_uuid document_uuid)).packages.map
        (·.SPDXID) := rfl
  rw [Bool.and_eq_true]
  constructor
  · exact contains_iff_mem.mpr (hids ▸ hmem.1)
  · exact contains_iff_mem.mpr (hids ▸ hmem.2)

/-- Referential integrity of any pruner output for a non-empty exclusion
set, over arbitrary input documents (guaranteed by the pruner's second
filter pass). -/
theorem prune_integrity (doc : SpdxDoc) {S : List String} (hS : S ≠ [])
    (o p : Option String) (t : String) :
    relEndpointsOKb (remove_test_dependencies doc S o p t) = true := by
  rw [prune_nonEmpty doc hS o p t, relEndpointsOKb, List.all_eq_true]
  intro r hr
  have hr' : r ∈ (prunedRels doc S).getD [] := hr
  have h := prunedRels_endpoints doc S r hr'
  rw [Bool.and_eq_true]
  exact ⟨contains_iff_mem.mpr h.1, contains_iff_mem.mpr h.2⟩

/-- C1 counterexample: the pruner invoked with the EMPTY exclusion set
returns its input unchanged, so a dangling relationship in the input
survives into the output — the claimed invariant fails for the pruner with
an empty exclusion set. -/
theorem C1_counterexample :
    relEndpointsOKb (remove_test_dependencies c1Doc [] none none "t1") = false := by
  rfl

/-- C1 (amended): every relationship in converter output has both
endpoints among the document root ID and the document's package IDs, and so
does every relationship in pruner output for any NON-EMPTY exclusion set;
for the empty exclusion set the pruner returns its input unchanged, so the
invariant holds only when the input already satisfied it. -/
theorem C1_referential_integrity :
    (∀ (components : List Component) (dm : Option DepMetadata)
        (ns organization person_email project_uuid document_uuid now : String)
        (project_name : Option String),
      relEndpointsOKb (convert_cyclonedx_to_spdx components dm ns organization
        person_email project_uuid document_uuid now project_name) = true) ∧
    (∀ (doc : SpdxDoc) (S : List String) (o p : Option String) (t : String),
      S ≠ [] → relEndpointsOKb (remove_test_dependencies doc S o p t) = true) :=
  ⟨convert_integrity,
   fun doc S o p t hS => prune_integrity doc hS o p t⟩

/-- C1 witness: both parts of the amended claim at concrete inputs. -/
theorem C1_witness :
    relEndpointsOKb (convert_cyclonedx_to_spdx [] none "n" "o" "e" "pu" "du"
      "t" none) = true ∧
    relEndpointsOKb (remove_test_dependencies c1Doc ["a"] none none "t1") = true :=
  ⟨C1_referential_integrity.1 [] none "n" "o" "e" "pu" "du" "t" none,
   C1_referential_integrity.2 c1Doc ["a"] none none "t1" (by decide)⟩

/-- C3: after pruning with exclusion set S, no surviving relationship has
an endpoint equal to the SPDXID of a package of the input document that
matched S (name in S, or name@version in S). -/
theorem C3_removal_completeness (doc : SpdxDoc) (S : List String)
    (o p : Option String) (t : String) (pkg : SpdxPackage)
    (hmem : pkg ∈ doc.packages)
    (hmatch : is_test_dependency pkg.name pkg.versionInfo S = true) :
    ∀ rel ∈ ((remove_test_dependencies doc S o p t).relationships.getD []),
      rel.spdxElementId ≠ pkg.SPDXID ∧ rel.relatedSpdxElement ≠ pkg.SPDXID := by
  have hS : S ≠ [] := by
    rintro rfl
    simp [is_test_dependency] at hmatch
  rw [prune_nonEmpty doc hS o p t]
  intro rel hrel
  have hrel' : rel ∈ (prunedRels doc S).getD [] := hrel
  have havoid := prunedRels_avoid_removed doc S rel hrel'
  have hid := mem_packagesToRemove hmem hmatch
  constructor
  · intro he
    exact havoid.1 (contains_iff_mem.mpr (he ▸ hid))
  · intro he
    exact havoid.2 (contains_iff_mem.mpr (he ▸ hid))

/-- C3 witness: the surviving DESCRIBES relationship of `c3Doc` pruned with
`testlib` avoids the removed package's ID. -/
theorem C3_witness :
    (⟨"SPDXRef-DOCUMENT", "SPDXRef-A", "DESCRIBES"⟩ : SpdxRel).spdxElementId
        ≠ c3Pkg.SPDXID ∧
    (⟨"SPDXRef-DOCUMENT", "SPDXRef-A", "DESCRIBES"⟩ : SpdxRel).relatedSpdxElement
        ≠ c3Pkg.SPDXID :=
  C3_removal_completeness c3Doc ["testlib"] none none "t1" c3Pkg
    (by decide) (by decide) ⟨"SPDXRef-DOCUMENT", "SPDXRef-A", "DESCRIBES"⟩
    (by decide)

/-- C6 counterexample: the pruner never re-derives `documentDescribes`;
after removing the described package the described ID no longer refers to
any package in the document. -/
theorem C6_counterexample :
    "SPDXRef-Package-app-1" ∈
      (remove_test_dependencies c6Doc ["app"] none none "t1").documentDescribes ∧
    "SPDXRef-Package-app-1" ∉
      docPackageIds (remove_test_dependencies c6Doc ["app"] none none "t1") := by
  decide

/-- C6 (amended): the pruner re-derives the relationship list (so pruned
documents satisfy relationship referential integrity for any non-empty
exclusion set) but leaves `documentDescribes` unchanged, so a described ID
may refer to a removed package. -/
theorem C6_prune_consistency :
    (∀ (doc : SpdxDoc) (S : List String) (o p : Option String) (t : String),
      (remove_test_dependencies doc S o p t).documentDescribes =
        doc.documentDescribes) ∧
    (∀ (doc : SpdxDoc) (S : List String) (o p : Option String) (t : String),
      S ≠ [] → relEndpointsOKb (remove_test_dependencies doc S o p t) = true) := by
  constructor
  · intro doc S o p t
    rw [remove_test_dependencies]
    split <;> rfl
  · intro doc S o p t hS
    exact prune_integrity doc hS o p t

/-- C6 witness: both parts of the amended claim at a concrete input. -/
theorem C6_witness :
    (remove_test_dependencies c6Doc ["app"] none none "t1").documentDescribes =
      c6Doc.documentDescribes ∧
    relEndpointsOKb (remove_test_dependencies c6Doc ["app"] none none "t1") =
      true :=
  ⟨C6_prune_consistency.1 c6Doc ["app"] none none "t1",
   C6_prune_consistency.2 c6Doc ["app"] none none "t1" (by decide)⟩

/-- C10: the pruner is a pure function of its input; with an empty
exclusion set it returns the input document itself — identical packages,
relationships and creation metadata, no timestamp refresh — while with a
non-empty exclusion set it builds a new document whose creation timestamp
is the refreshed one. -/
theorem C10_prune_pure :
    (∀ (doc : SpdxDoc) (o p : Option String) (t : String),
      remove_test_dependencies doc [] o p t = doc) ∧
    (∀ (doc : SpdxDoc) (S : List String) (o p : Option String) (t : String),
      S ≠ [] →
      (remove_test_dependencies doc S o p t).creationInfo.created = t) := by
  constructor
  · exact prune_empty
  · intro doc S o p t hS
    rw [prune_nonEmpty doc hS o p t]

/-- C10 witness: both parts at concrete inputs. -/
theorem C10_witness :
    remove_test_dependencies c10Doc [] none none "t9" = c10Doc ∧
    (remove_test_dependencies c10Doc ["app"] none none "t9").creationInfo.created
      = "t9" :=
  ⟨C10_prune_pure.1 c10Doc none none "t9",
   C10_prune_pure.2 c10Doc ["app"] none none "t9" (by decide)⟩

/-- C4 counterexample: when the `supplier` key is absent its default is the
truthy sentinel `NOASSERTION`, so the `publisher` key is never consulted —
against the claimed supplier → publisher → sentinel order, the publisher
`Acme Corp` does not reach the output package. -/
theorem C4_counterexample :
    c4Comp.supplier = none ∧ c4Comp.publisher = some "Acme Corp" ∧
    (convert_cyclonedx_to_spdx [c4Comp] none "ns" "org" "pe" "pu" "du" "t"
        none).packages.map (·.supplier) =
      ["Organization: org", "Organization: NOASSERTION"] ∧
    ∀ p ∈ (convert_cyclonedx_to_spdx [c4Comp] none "ns" "org" "pe" "pu" "du"
        "t" none).packages, p.supplier ≠ "Organization: Acme Corp" := by
  refine ⟨rfl, rfl, by rfl, ?_⟩
  decide

/-- C4 (amended): the supplier value is the supplier object's `name` with
sentinel `NOASSERTION` when the supplier key or its name is absent; the
publisher is consulted only when that value is the empty string and a
publisher key exists; the emitted supplier field is
`Organization: {value}` and is never the empty string. -/
theorem C4_supplier_resolution :
    (∀ c : Component, (c.supplier = none ∨ c.supplier = some none) →
      supplierNameOf c = "NOASSERTION") ∧
    (∀ (c : Component) (s : String), c.supplier = some (some s) → s ≠ "" →
      supplierNameOf c = s) ∧
    (∀ (c : Component) (p : String), c.supplier = some (some "") →
      c.publisher = some p → supplierNameOf c = p) ∧
    (∀ (c : Component) (id : String), (mkPackage c id).supplier ≠ "") := by
  refine ⟨?_, ?_, ?_, ?_⟩
  · intro c hc
    rcases hc with hc | hc <;>
      · rw [supplierNameOf, hc]
        rfl
  · intro c s hc hs
    rw [supplierNameOf, hc]
    simp only [Option.getD_some]
    rw [if_neg hs]
  · intro c p hc hp
    rw [supplierNameOf, hc, hp]
    rfl
  · intro c id h
    have hd := congrArg String.data h
    rw [show (mkPackage c id).supplier =
        "Organization: " ++ supplierNameOf c from rfl,
      String.data_append] at hd
    simp at hd

/-- C4 witness: the four amended clauses at concrete components. -/
theorem C4_witness :
    supplierNameOf ⟨some "a", some "1", none, some "Pub", none, none, []⟩ =
      "NOASSERTION" ∧
    supplierNameOf ⟨some "a", some "1", some (some "Sup"), none, none, none,
      []⟩ = "Sup" ∧
    supplierNameOf ⟨some "a", some "1", some (some ""), some "Pub", none,
      none, []⟩ = "Pub" ∧
    (mkPackage ⟨some "a", some "1", none, none, none, none, []⟩ "id").supplier
      ≠ "" :=
  ⟨C4_supplier_resolution.1 _ (Or.inl rfl),
   C4_supplier_resolution.2.1 _ "Sup" rfl (by decide),
   C4_supplier_resolution.2.2.1 _ "Pub" rfl rfl,
   C4_supplier_resolution.2.2.2 _ "id"⟩

theorem find?_first {α} {p : α → Bool} {r : α} :
    ∀ pre : List α, (∀ x ∈ pre, p x = false) → p r = true →
    ∀ post : List α, (pre ++ r :: post).find? p = some r := by
  intro pre
  induction pre with
  | nil =>
      intro _ hr post
      simp [List.find?_cons, hr]
  | cons a rest ih =>
      intro hpre hr post
      have ha : p a = false := hpre a (List.mem_cons_self a rest)
      rw [List.cons_append, List.find?_cons, ha]
      exact ih (fun x hx => hpre x (List.mem_cons_of_mem a hx)) hr post

theorem downloadLocationOf_some {c : Component} {refs : List ExternalRef}
    (h : c.externalReferences = some refs) :
    downloadLocationOf c =
      (match refs.find? isVcsOrDist with
        | some r => r.url.getD "NOASSERTION"
        | none => "NOASSERTION") := by
  rw [downloadLocationOf, h]

/-- C7: the download location is the URL of the first external reference
typed vcs or distribution; an `externalReferences` list with no match gives
NOASSERTION without consulting the package URL; the package-URL fallback
(with NOASSERTION default) applies exactly when no `externalReferences`
list exists. -/
theorem C7_download_location :
    (∀ (c : Component) (pre post : List ExternalRef) (r : ExternalRef)
        (u : String),
      c.externalReferences = some (pre ++ r :: post) →
      (∀ x ∈ pre, isVcsOrDist x = false) → isVcsOrDist r = true →
      r.url = some u → downloadLocationOf c = u) ∧
    (∀ (c : Component) (refs : List ExternalRef),
      c.externalReferences = some refs →
      (∀ x ∈ refs, isVcsOrDist x = false) →
      downloadLocationOf c = "NOASSERTION") ∧
    (∀ c : Component, c.externalReferences = none →
      downloadLocationOf c = c.purl.getD "NOASSERTION") := by
  refine ⟨?_, ?_, ?_⟩
  · intro c pre post r u hrefs hpre hr hu
    rw [downloadLocationOf_some hrefs, find?_first pre hpre hr post]
    show r.url.getD "NOASSERTION" = u
    rw [hu]
    rfl
  · intro c refs hrefs hall
    rw [downloadLocationOf_some hrefs, List.find?_eq_none.mpr
      (fun x hx => by rw [hall x hx]; exact Bool.false_ne_true)]
  · intro c hrefs
    rw [downloadLocationOf, hrefs]

/-- C7 witness: the three clauses at concrete components. -/
theorem C7_witness :
    downloadLocationOf ⟨some "a", some "1", none, none,
      some [⟨some "website", some "https://w"⟩, ⟨some "vcs", some "https://g"⟩],
      some "purl0", []⟩ = "https://g" ∧
    downloadLocationOf ⟨some "a", some "1", none, none,
      some [⟨some "website", some "https://w"⟩], some "purl0", []⟩ =
      "NOASSERTION" ∧
    downloadLocationOf ⟨some "a", some "1", none, none, none, some "purl0",
      []⟩ = (some "purl0").getD "NOASSERTION" :=
  ⟨C7_download_location.1 _ [⟨some "website", some "https://w"⟩] []
      ⟨some "vcs", some "https://g"⟩ "https://g" rfl (by decide) (by decide) rfl,
   C7_download_location.2.1 _ [⟨some "website", some "https://w"⟩] rfl
      (by decide),
   C7_download_location.2.2 _ rfl⟩

/-- C2: all SPDX package IDs emitted by the converter — the application
package's and one per component, generated by sanitize + base ID +
first-free counter suffix — are pairwise distinct for every input. -/
theorem C2_unique_ids (components : List Component) (dm : Option DepMetadata)
    (ns organization person_email project_uuid document_uuid now : String)
    (project_name : Option String) :
    ((convert_cyclonedx_to_spdx components dm ns organization person_email
      project_uuid document_uuid now project_name).packages.map
      (·.SPDXID)).Nodup := by
  have h := processComponents_ids components [convAppId project_uuid document_uuid]
  have happ : convAppId project_uuid document_uuid ∉
      (convState components (convAppId project_uuid document_uuid)).packages.map
        (·.SPDXID) := by
    intro hc
    rcases List.mem_map.mp hc with ⟨p, hp, hpid⟩
    refine h.1 p hp ?_
    rw [hpid]
    exact List.mem_singleton.mpr rfl
  show (convAppId project_uuid document_uuid ::
      (convState components (convAppId project_uuid document_uuid)).packages.map
        (·.SPDXID)).Nodup
  exact List.Nodup.cons happ h.2

theorem depOnKey_depOn (a b : String) : depOnKey (depOn a b) = some (a, b) := rfl

theorem depOnKey_depOf (a b : String) : depOnKey (depOf a b) = none := rfl

theorem depOfKey_depOn (a b : String) : depOfKey (depOn a b) = none := rfl

theorem depOfKey_depOf (a b : String) : depOfKey (depOf a b) = some (a, b) := rfl

theorem depOnKey_eq_some {r : SpdxRel} {a b : String} :
    depOnKey r = some (a, b) ↔
    r = ⟨a, b, "DEPENDS_ON"⟩ := by
  rw [depOnKey]
  constructor
  · intro h
    split at h
    · rcases r with ⟨x, y, ty⟩
      simp only [Option.some_inj, Prod.mk.injEq] at h
      simp_all
    · simp at h
  · rintro rfl
    rfl

theorem depOfKey_eq_some {r : SpdxRel} {a b : String} :
    depOfKey r = some (a, b) ↔
    r = ⟨a, b, "DEPENDENCY_OF"⟩ := by
  rw [depOfKey]
  constructor
  · intro h
    split at h
    · rcases r with ⟨x, y, ty⟩
      simp only [Option.some_inj, Prod.mk.injEq] at h
      simp_all
    · simp at h
  · rintro rfl
    rfl

/-- In the output of the direct-dependency loop the DEPENDENCY_OF pairs are
exactly the swapped DEPENDS_ON pairs. -/
theorem directRels_keys (api : List (String × String)) (appId : String) :
    ∀ ds : List String,
      (directRels api appId ds).filterMap depOfKey =
        ((directRels api appId ds).filterMap depOnKey).map Prod.swap := by
  intro ds
  induction ds with
  | nil => rfl
  | cons dn rest ih =>
      cases hl : lookupAssoc api dn with
      | none => simp only [directRels, hl]; exact ih
      | some did =>
          simp only [directRels, hl, List.filterMap_cons, depOnKey_depOn,
            depOnKey_depOf, depOfKey_depOn, depOfKey_depOf, List.map_cons]
          rw [ih]
          rfl

/-- In the output of the inner transitive loop the DEPENDENCY_OF pairs are
exactly the swapped DEPENDS_ON pairs. -/
theorem childLoop_keys (api : List (String × String)) (pid : String) :
    ∀ ds processed : List String,
      ((childLoop api pid ds processed).1).filterMap depOfKey =
        (((childLoop api pid ds processed).1).filterMap depOnKey).map
          Prod.swap := by
  intro ds
  induction ds with
  | nil => intro processed; rfl
  | cons dn rest ih =>
      intro processed
      cases hl : lookupAssoc api dn with
      | none => simp only [childLoop, hl]; exact ih processed
      | some cid =>
          by_cases hk : (pid ++ ":" ++ cid) ∈ processed
          · simp only [childLoop, hl, if_pos hk]; exact ih processed
          · simp only [childLoop, hl, if_neg hk, List.filterMap_cons,
              depOnKey_depOn, depOnKey_depOf, depOfKey_depOn, depOfKey_depOf,
              List.map_cons]
            rw [ih]
            rfl

/-- In the output of the transitive loop the DEPENDENCY_OF pairs are exactly
the swapped DEPENDS_ON pairs. -/
theorem transLoop_keys (api : List (String × String)) :
    ∀ (entries : List (String × List String)) (processed : List String),
      (transLoop api entries processed).filterMap depOfKey =
        ((transLoop api entries processed).filterMap depOnKey).map Prod.swap := by
  intro entries
  induction entries with
  | nil => intro processed; rfl
  | cons e rest ih =>
      intro processed
      rcases e with ⟨pn, ds⟩
      cases hl : lookupAssoc api pn with
      | none => simp only [transLoop, hl]; exact ih processed
      | some pid =>
          simp only [transLoop, hl, List.filterMap_append, List.map_append]
          rw [childLoop_keys api pid ds processed, ih]

/-- In the full converted relationship list the DEPENDENCY_OF pairs are
exactly the swapped DEPENDS_ON pairs. -/
theorem convRels_keys (components : List Component) (appId : String)
    (dm : Option DepMetadata) :
    (convRels components appId dm).filterMap depOfKey =
      ((convRels components appId dm).filterMap depOnKey).map Prod.swap := by
  cases dm with
  | none => rfl
  | some md =>
      rw [convRels, convRelsTail]
      simp only [List.filterMap_cons]
      have h1 : depOnKey ⟨"SPDXRef-DOCUMENT", appId, "DESCRIBES"⟩ = none := rfl
      have h2 : depOfKey ⟨"SPDXRef-DOCUMENT", appId, "DESCRIBES"⟩ = none := rfl
      rw [h1, h2]
      simp only [List.filterMap_append, List.map_append]
      rw [directRels_keys, transLoop_keys]

/-- C8: in converter output, every DEPENDS_ON relationship from a to b is
accompanied by a DEPENDENCY_OF relationship from b to a, and conversely —
dependency pairs are never one-directional. -/
theorem C8_pair_symmetry (components : List Component) (dm : Option DepMetadata)
    (ns organization person_email project_uuid document_uuid now : String)
    (project_name : Option String) :
    pairSymB ((convert_cyclonedx_to_spdx components dm ns organization
      person_email project_uuid document_uuid now project_name).relationships.getD
      []) = true := by
  rw [pairSymB, List.all_eq_true]
  intro r hr
  set appId := convAppId project_uuid document_uuid with happid
  have hr' : r ∈ convRels components appId dm := hr
  rw [Bool.and_eq_true]
  constructor
  · split
    case isTrue hty =>
        have hty' : r.relationshipType = "DEPENDS_ON" := by simpa using hty
        have hkey : depOnKey r = some (r.spdxElementId, r.relatedSpdxElement) := by
          rw [depOnKey, if_pos hty']
        have hmem : (r.spdxElementId, r.relatedSpdxElement) ∈
            (convRels components appId dm).filterMap depOnKey :=
          List.mem_filterMap.mpr ⟨r, hr', hkey⟩
        have hswap : (r.relatedSpdxElement, r.spdxElementId) ∈
            (convRels components appId dm).filterMap depOfKey := by
          rw [convRels_keys]
          exact List.mem_map.mpr ⟨_, hmem, rfl⟩
        rcases List.mem_filterMap.mp hswap with ⟨r', hr'', hk'⟩
        have := depOfKey_eq_some.mp hk'
        rw [this] at hr''
        exact contains_iff_mem.mpr hr''
    case isFalse => rfl
  · split
    case isTrue hty =>
        have hty' : r.relationshipType = "DEPENDENCY_OF" := by simpa using hty
        have hkey : depOfKey r = some (r.spdxElementId, r.relatedSpdxElement) := by
          rw [depOfKey, if_pos hty']
        have hmem : (r.spdxElementId, r.relatedSpdxElement) ∈
            (convRels components appId dm).filterMap depOfKey :=
          List.mem_filterMap.mpr ⟨r, hr', hkey⟩
        rw [convRels_keys] at hmem
        rcases List.mem_map.mp hmem with ⟨q, hq, hqs⟩
        have hq' : q = (r.relatedSpdxElement, r.spdxElementId) := by
          rcases q with ⟨a, b⟩
          simp only [Prod.swap, Prod.mk.injEq] at hqs
          simp [hqs.1, hqs.2]
        rw [hq'] at hq
        rcases List.mem_filterMap.mp hq with ⟨r', hr'', hk'⟩
        have := depOnKey_eq_some.mp hk'
        rw [this] at hr''
        exact contains_iff_mem.mpr hr''
    case isFalse => rfl

theorem list_colon_inj :
    ∀ l1 l2 r1 r2 : List Char, (∀ c ∈ l1, c ≠ ':') → (∀ c ∈ l2, c ≠ ':') →
    l1 ++ ':' :: r1 = l2 ++ ':' :: r2 → l1 = l2 ∧ r1 = r2 := by
  intro l1
  induction l1 with
  | nil =>
      intro l2 r1 r2 _ h2 h
      cases l2 with
      | nil => simpa using h
      | cons b l2 =>
          exfalso
          simp only [List.nil_append, List.cons_append, List.cons.injEq] at h
          exact h2 b (List.mem_cons_self b l2) h.1.symm
  | cons a l1 ih =>
      intro l2 r1 r2 h1 h2 h
      cases l2 with
      | nil =>
          exfalso
          simp only [List.cons_append, List.nil_append, List.cons.injEq] at h
          exact h1 a (List.mem_cons_self a l1) h.1
      | cons b l2 =>
          simp only [List.cons_append, List.cons.injEq] at h
          have := ih l2 r1 r2 (fun c hc => h1 c (List.mem_cons_of_mem a hc))
            (fun c hc => h2 c (List.mem_cons_of_mem b hc)) h.2
          simp [h.1, this.1, this.2]

/-- The converter's `"{parent}:{child}"` dedup keys are unambiguous when the
parent IDs are colon-free. -/
theorem colon_key_inj {p1 c1 p2 c2 : String} (h1 : NoColon p1)
    (h2 : NoColon p2) (h : p1 ++ ":" ++ c1 = p2 ++ ":" ++ c2) :
    p1 = p2 ∧ c1 = c2 := by
  have hd := congrArg String.data h
  simp only [String.data_append] at hd
  rw [List.append_assoc, List.append_assoc] at hd
  have hd' : p1.data ++ ':' :: c1.data = p2.data ++ ':' :: c2.data := by
    simpa using hd
  have := list_colon_inj p1.data p2.data c1.data c2.data h1 h2 hd'
  exact ⟨String.ext this.1, String.ext this.2⟩

theorem append_right_cancel_str {a b c : String} (h : a ++ b = a ++ c) :
    b = c := by
  have hd := congrArg String.data h
  simp only [String.data_append] at hd
  exact String.ext (List.append_cancel_left hd)

/-- Every value of the conversion run's api dict is colon-free. -/
theorem convApi_noColon {components : List Component} {appId : String}
    {deps : List DepInfo} {fn v : String}
    (h : lookupAssoc (convApi components appId deps) fn = some v) :
    NoColon v := by
  rcases List.mem_map.mp (convApi_values h) with ⟨p, hp, hpv⟩
  exact hpv ▸ processComponents_noColon components [appId] p hp

theorem buildMetadata_dependencies (objs : List DepInfo) :
    (buildMetadata objs).dependencies = objs := by
  have key : ∀ (l : List DepInfo) (acc : DepMetadata),
      (l.foldl metaStep acc).dependencies = acc.dependencies ++ l := by
    intro l
    induction l with
    | nil => intro acc; simp
    | cons d rest ih =>
        intro acc
        rw [List.foldl_cons, ih]
        simp [metaStep]
  rw [buildMetadata, key]
  rfl

theorem mem_addDirect_self (s : List String) (fn : String) :
    fn ∈ addDirect s fn := by
  rw [addDirect]
  split
  · assumption
  · simp

theorem mem_addDirect_of_mem {s : List String} {x : String} (hx : x ∈ s)
    (fn : String) : x ∈ addDirect s fn := by
  rw [addDirect]
  split
  · exact hx
  · exact List.mem_append_left _ hx

theorem direct_foldl_mono {x : String} :
    ∀ (l : List DepInfo) (acc : DepMetadata),
      x ∈ acc.direct_dependencies →
      x ∈ (l.foldl metaStep acc).direct_dependencies := by
  intro l
  induction l with
  | nil => intro acc h; exact h
  | cons d rest ih =>
      intro acc h
      rw [List.foldl_cons]
      refine ih _ ?_
      rw [metaStep]
      split
      · exact mem_addDirect_of_mem h _
      · exact h

theorem mem_direct_foldl {d : DepInfo} (hdir : d.is_direct = true) :
    ∀ (l : List DepInfo) (acc : DepMetadata), d ∈ l →
      d.name ∈ (l.foldl metaStep acc).direct_dependencies := by
  intro l
  induction l with
  | nil => intro acc h; simp at h
  | cons e rest ih =>
      intro acc hd
      rw [List.foldl_cons]
      rcases List.mem_cons.mp hd with rfl | hd
      · refine direct_foldl_mono rest _ ?_
        rw [metaStep, if_pos hdir]
        exact mem_addDirect_self _ _
      · exact ih _ hd

/-- A direct dependency record's full name lands in the direct set. -/
theorem buildMetadata_mem_direct {objs : List DepInfo} {d : DepInfo}
    (hd : d ∈ objs) (hdir : d.is_direct = true) :
    d.name ∈ (buildMetadata objs).direct_dependencies := by
  rw [buildMetadata]
  exact mem_direct_foldl hdir objs _ hd

theorem find?_map_keyPres {α β : Type} {g : α × β → α × β} [BEq α]
    (hg : ∀ e, (g e).1 = e.1) (p : α) :
    ∀ m : List (α × β), (m.map g).find? (fun e => e.1 == p) =
      (m.find? (fun e => e.1 == p)).map g := by
  intro m
  induction m with
  | nil => rfl
  | cons e rest ih =>
      by_cases he : (e.1 == p) = true
      · simp [List.find?_cons, hg e, he]
      · simp only [List.map_cons, List.find?_cons, hg e,
          Bool.not_eq_true] at *
        rw [he]
        simpa [he] using ih

theorem lookupDeps_mem {m : List (String × List String)} {p : String}
    {ds : List String} (h : lookupDeps m p = some ds) : (p, ds) ∈ m := by
  rw [lookupDeps] at h
  cases hf : m.find? (fun e => e.1 == p) with
  | none => rw [hf] at h; simp at h
  | some e =>
      rw [hf] at h
      have hk : e.1 = p := by simpa using List.find?_some hf
      have hv : e.2 = ds := by simpa using h
      have := List.mem_of_find?_eq_some hf
      rw [← hk, ← hv]
      simpa using this

theorem mem_lookupDeps_addParentDep_self (m : List (String × List String))
    (p fn : String) :
    fn ∈ ((lookupDeps (addParentDep m p fn) p).getD []) := by
  rw [addParentDep]
  by_cases hany : m.any (fun e => e.1 == p) = true
  · rw [if_pos hany]
    have hsome : (m.find? (fun e => e.1 == p)).isSome = true :=
      List.find?_isSome.mpr (List.any_eq_true.mp hany)
    rcases Option.isSome_iff_exists.mp hsome with ⟨e, hf⟩
    have hk0 := List.find?_some hf
    have hk : (e.1 == p) = true := hk0
    rw [lookupDeps, find?_map_keyPres (fun e => by split <;> rfl) p m, hf]
    simp only [Option.map_map, Option.map]
    rw [show (if e.1 == p then (e.1, e.2 ++ [fn]) else e) =
      (e.1, e.2 ++ [fn]) from if_pos hk]
    simp
  · rw [if_neg hany]
    have hnone : m.find? (fun e => e.1 == p) = none := by
      rw [List.find?_eq_none]
      intro x hx hpx
      exact hany (List.any_eq_true.mpr ⟨x, hx, hpx⟩)
    rw [lookupDeps, List.find?_append, hnone]
    simp [List.find?_cons]

theorem lookupDeps_addParentDep_mono {m : List (String × List String)}
    {p x : String} (pq fn : String)
    (hx : x ∈ (lookupDeps m p).getD []) :
    x ∈ (lookupDeps (addParentDep m pq fn) p).getD [] := by
  rw [lookupDeps] at hx
  cases hf : m.find? (fun e => e.1 == p) with
  | none => rw [hf] at hx; simp at hx
  | some e =>
      rw [hf] at hx
      simp only [Option.map, Option.getD_some] at hx
      rw [addParentDep]
      by_cases hany : m.any (fun e => e.1 == pq) = true
      · rw [if_pos hany, lookupDeps,
          find?_map_keyPres (fun e => by split <;> rfl) p m, hf]
        simp only [Option.map_map, Option.map]
        split
        · show x ∈ e.2 ++ [fn]
          exact List.mem_append_left _ hx
        · show x ∈ e.2
          exact hx
      · rw [if_neg hany, lookupDeps, List.find?_append, hf]
        simpa [Option.or] using hx

theorem metaStep_parentMap (md : DepMetadata) (d : DepInfo) :
    (metaStep md d).package_name_to_deps =
      if d.parent ≠ "" then addParentDep md.package_name_to_deps d.parent d.name
      else md.package_name_to_deps := rfl

theorem parent_foldl_mono {x p : String} :
    ∀ (l : List DepInfo) (acc : DepMetadata),
      x ∈ (lookupDeps acc.package_name_to_deps p).getD [] →
      x ∈ (lookupDeps (l.foldl metaStep acc).package_name_to_deps p).getD [] := by
  intro l
  induction l with
  | nil => intro acc h; exact h
  | cons d rest ih =>
      intro acc h
      rw [List.foldl_cons]
      refine ih _ ?_
      rw [metaStep_parentMap]
      split
      · exact lookupDeps_addParentDep_mono _ _ h
      · exact h

theorem mem_parent_foldl {d : DepInfo} (hp : d.parent ≠ "") :
    ∀ (l : List DepInfo) (acc : DepMetadata), d ∈ l →
      d.name ∈
        (lookupDeps (l.foldl metaStep acc).package_name_to_deps d.parent).getD
          [] := by
  intro l
  induction l with
  | nil => intro acc h; simp at h
  | cons e rest ih =>
      intro acc hd
      rw [List.foldl_cons]
      rcases List.mem_cons.mp hd with rfl | hd
      · refine parent_foldl_mono rest _ ?_
        rw [metaStep_parentMap, if_pos hp]
        exact mem_lookupDeps_addParentDep_self _ _ _
      · exact ih _ hd

/-- A dependency record with a non-empty parent lands in the parent's entry
of the parent→children map. -/
theorem buildMetadata_mem_parentDeps {objs : List DepInfo} {d : DepInfo}
    (hd : d ∈ objs) (hp : d.parent ≠ "") :
    d.name ∈
      (lookupDeps (buildMetadata objs).package_name_to_deps d.parent).getD [] := by
  rw [buildMetadata]
  exact mem_parent_foldl hp objs _ hd

/-- Every resolvable name in the direct list yields both halves of its
relationship pair. -/
theorem directRels_emit {api : List (String × String)} (appId : String)
    {dn cid : String} (hl : lookupAssoc api dn = some cid) :
    ∀ ds : List String, dn ∈ ds →
      depOn appId cid ∈ directRels api appId ds ∧
      depOf cid appId ∈ directRels api appId ds := by
  intro ds
  induction ds with
  | nil => intro h; simp at h
  | cons dn' rest ih =>
      intro hd
      rcases List.mem_cons.mp hd with rfl | hd
      · rw [directRels, hl]
        exact ⟨List.mem_cons_self _ _,
          List.mem_cons_of_mem _ (List.mem_cons_self _ _)⟩
      · cases hl' : lookupAssoc api dn' with
        | none =>
            simp only [directRels, hl']
            exact ih hd
        | some did =>
            simp only [directRels, hl']
            have := ih hd
            exact ⟨List.mem_cons_of_mem _ (List.mem_cons_of_mem _ this.1),
              List.mem_cons_of_mem _ (List.mem_cons_of_mem _ this.2)⟩

/-- Either the inner loop emits the pair for a resolvable child, or its
dedup key was already in the incoming processed set. -/
theorem childLoop_emit {api : List (String × String)} {pid dn cid : String}
    (hl : lookupAssoc api dn = some cid) :
    ∀ (ds processed : List String), dn ∈ ds →
      depOn pid cid ∈ (childLoop api pid ds processed).1 ∨
      (pid ++ ":" ++ cid) ∈ processed := by
  intro ds
  induction ds with
  | nil => intro processed h; simp at h
  | cons dn' rest ih =>
      intro processed hd
      cases hl' : lookupAssoc api dn' with
      | none =>
          simp only [childLoop, hl']
          rcases List.mem_cons.mp hd with rfl | hd
          · rw [hl'] at hl; simp at hl
          · exact ih processed hd
      | some cid' =>
          by_cases hk : (pid ++ ":" ++ cid') ∈ processed
          · simp only [childLoop, hl', if_pos hk]
            rcases List.mem_cons.mp hd with rfl | hd
            · rw [hl'] at hl
              rcases Option.some_inj.mp hl with rfl
              exact Or.inr hk
            · exact ih processed hd
          · simp only [childLoop, hl', if_neg hk]
            rcases List.mem_cons.mp hd with rfl | hd
            · rw [hl'] at hl
              rcases Option.some_inj.mp hl with rfl
              exact Or.inl (List.mem_cons_self _ _)
            · rcases ih ((pid ++ ":" ++ cid') :: processed) hd with hin | hkey
              · exact Or.inl (List.mem_cons_of_mem _
                  (List.mem_cons_of_mem _ hin))
              · rcases List.mem_cons.mp hkey with heq | hkey
                · have : cid = cid' := append_right_cancel_str
                    (a := pid ++ ":") heq
                  rw [this]
                  exact Or.inl (List.mem_cons_self _ _)
                · exact Or.inr hkey

/-- Every key grown by the inner loop is either an incoming key or the key
of a pair it emitted. -/
theorem childLoop_grown {api : List (String × String)} {pid : String} :
    ∀ (ds processed : List String), ∀ k ∈ (childLoop api pid ds processed).2,
      k ∈ processed ∨
      ∃ c, k = pid ++ ":" ++ c ∧ depOn pid c ∈ (childLoop api pid ds processed).1 := by
  intro ds
  induction ds with
  | nil => intro processed k hk; exact Or.inl hk
  | cons dn' rest ih =>
      intro processed k hk
      cases hl' : lookupAssoc api dn' with
      | none =>
          simp only [childLoop, hl'] at hk ⊢
          exact ih processed k hk
      | some cid' =>
          by_cases hkey : (pid ++ ":" ++ cid') ∈ processed
          · simp only [childLoop, hl', if_pos hkey] at hk ⊢
            exact ih processed k hk
          · simp only [childLoop, hl', if_neg hkey] at hk ⊢
            rcases ih ((pid ++ ":" ++ cid') :: processed) k hk with hin | ⟨c, hc, hmem⟩
            · rcases List.mem_cons.mp hin with rfl | hin
              · exact Or.inr ⟨cid', rfl, List.mem_cons_self _ _⟩
              · exact Or.inl hin
            · exact Or.inr ⟨c, hc, List.mem_cons_of_mem _
                (List.mem_cons_of_mem _ hmem)⟩

/-- Either the transitive loop emits the pair for a resolvable parent/child
entry, or the pair's dedup key was already in the incoming processed set. -/
theorem transLoop_emit {api : List (String × String)} {pn pid dn cid : String}
    {ds : List String} (hpn : lookupAssoc api pn = some pid)
    (hdn : lookupAssoc api dn = some cid) (hd : dn ∈ ds)
    (hcf : ∀ fn v, lookupAssoc api fn = some v → NoColon v) :
    ∀ (entries : List (String × List String)) (processed : List String),
      (pn, ds) ∈ entries →
      depOn pid cid ∈ transLoop api entries processed ∨
      (pid ++ ":" ++ cid) ∈ processed := by
  intro entries
  induction entries with
  | nil => intro processed h; simp at h
  | cons e rest ih =>
      intro processed hmem
      rcases e with ⟨pn', ds'⟩
      cases hl' : lookupAssoc api pn' with
      | none =>
          simp only [transLoop, hl']
          rcases List.mem_cons.mp hmem with heq | hmem
          · rcases Prod.mk.injEq .. ▸ heq with ⟨rfl, rfl⟩
            rw [hl'] at hpn; simp at hpn
          · exact ih processed hmem
      | some pid' =>
          simp only [transLoop, hl']
          rcases List.mem_cons.mp hmem with heq | hmem
          · have hpn' : pn' = pn ∧ ds' = ds := by
              constructor <;> · injection heq with h1 h2; simp_all
            rcases hpn' with ⟨rfl, rfl⟩
            rw [hl'] at hpn
            rcases Option.some_inj.mp hpn with rfl
            rcases childLoop_emit hdn _ processed hd with hin | hkey
            · exact Or.inl (List.mem_append_left _ hin)
            · exact Or.inr hkey
          · rcases ih (childLoop api pid' ds' processed).2 hmem with hin | hkey
            · exact Or.inl (List.mem_append_right _ hin)
            · rcases childLoop_grown ds' processed _ hkey with hin | ⟨c, hc, hcmem⟩
              · exact Or.inr hin
              · have hsplit := colon_key_inj (hcf pn pid hpn)
                  (hcf pn' pid' hl') hc
                rcases hsplit with ⟨rfl, rfl⟩
                exact Or.inl (List.mem_append_left _ hcmem)

/-- The transitive loop emits DEPENDENCY_OF exactly for its DEPENDS_ON
pairs, swapped. -/
theorem depOf_of_depOn_transLoop {api : List (String × String)}
    {entries : List (String × List String)} {processed : List String}
    {pid cid : String}
    (h : depOn pid cid ∈ transLoop api entries processed) :
    depOf cid pid ∈ transLoop api entries processed := by
  have hk : (pid, cid) ∈ (transLoop api entries processed).filterMap depOnKey :=
    List.mem_filterMap.mpr ⟨_, h, depOnKey_depOn pid cid⟩
  have hsw : (cid, pid) ∈ (transLoop api entries processed).filterMap depOfKey := by
    rw [transLoop_keys]
    exact List.mem_map.mpr ⟨(pid, cid), hk, rfl⟩
  rcases List.mem_filterMap.mp hsw with ⟨r, hr, hkey⟩
  rw [depOfKey_eq_some.mp hkey] at hr
  exact hr

/-- C5 counterexample: an edge whose normalized key resolves in the lookup
table but whose parent reference is absent and whose direct flag is false
produces NO relationship at all — against the claim, which requires the
application↔child pair for every resolvable edge with an absent parent. -/
theorem C5_counterexample :
    (resolveDep (convState [c5Comp] (convAppId "pu" "du")).table
      c5Dep.name).isSome = true ∧
    c5Dep.parent = "" ∧ c5Dep.is_direct = false ∧
    ((convert_cyclonedx_to_spdx [c5Comp] (some (buildMetadata [c5Dep])) "ns"
      "org" "pe" "pu" "du" "t" none).relationships.getD []).filterMap depOnKey
      = [] := by
  refine ⟨by decide, rfl, rfl, by decide⟩

/-- C5 (amended): an edge explicitly flagged direct whose name resolves in
the api dict yields the DEPENDS_ON/DEPENDENCY_OF pair between the synthetic
application package and the resolved child; an edge with a non-empty parent
that resolves in the api dict, and a resolvable name, yields the pair
between the resolved parent and the resolved child.  An edge with an absent
parent that is not flagged direct yields nothing (see the counterexample). -/
theorem C5_edge_wiring :
    (∀ (components : List Component) (objs : List DepInfo)
        (ns organization person_email project_uuid document_uuid now : String)
        (project_name : Option String) (d : DepInfo) (cid : String),
      d ∈ objs → d.is_direct = true →
      lookupAssoc (convApi components (convAppId project_uuid document_uuid)
        (buildMetadata objs).dependencies) d.name = some cid →
      depOn (convAppId project_uuid document_uuid) cid ∈
        (convert_cyclonedx_to_spdx components (some (buildMetadata objs)) ns
          organization person_email project_uuid document_uuid now
          project_name).relationships.getD [] ∧
      depOf cid (convAppId project_uuid document_uuid) ∈
        (convert_cyclonedx_to_spdx components (some (buildMetadata objs)) ns
          organization person_email project_uuid document_uuid now
          project_name).relationships.getD []) ∧
    (∀ (components : List Component) (objs : List DepInfo)
        (ns organization person_email project_uuid document_uuid now : String)
        (project_name : Option String) (d : DepInfo) (pid cid : String),
      d ∈ objs → d.parent ≠ "" →
      lookupAssoc (convApi components (convAppId project_uuid document_uuid)
        (buildMetadata objs).dependencies) d.parent = some pid →
      lookupAssoc (convApi components (convAppId project_uuid document_uuid)
        (buildMetadata objs).dependencies) d.name = some cid →
      depOn pid cid ∈
        (convert_cyclonedx_to_spdx components (some (buildMetadata objs)) ns
          organization person_email project_uuid document_uuid now
          project_name).relationships.getD [] ∧
      depOf cid pid ∈
        (convert_cyclonedx_to_spdx components (some (buildMetadata objs)) ns
          organization person_email project_uuid document_uuid now
          project_name).relationships.getD []) := by
  constructor
  · intro components objs ns organization person_email project_uuid
      document_uuid now project_name d cid hmem hdir hl
    have hdm : d.name ∈ (buildMetadata objs).direct_dependencies :=
      buildMetadata_mem_direct hmem hdir
    have hboth := directRels_emit (convAppId project_uuid document_uuid) hl
      (buildMetadata objs).direct_dependencies hdm
    constructor
    · show depOn (convAppId project_uuid document_uuid) cid ∈
        convRels components (convAppId project_uuid document_uuid)
          (some (buildMetadata objs))
      rw [convRels, convRelsTail]
      exact List.mem_cons_of_mem _ (List.mem_append_left _ hboth.1)
    · show depOf cid (convAppId project_uuid document_uuid) ∈
        convRels components (convAppId project_uuid document_uuid)
          (some (buildMetadata objs))
      rw [convRels, convRelsTail]
      exact List.mem_cons_of_mem _ (List.mem_append_left _ hboth.2)
  · intro components objs ns organization person_email project_uuid
      document_uuid now project_name d pid cid hmem hpne hpid hcid
    have hpd := buildMetadata_mem_parentDeps hmem hpne
    cases hld : lookupDeps (buildMetadata objs).package_name_to_deps d.parent with
    | none => rw [hld] at hpd; simp at hpd
    | some ds =>
        have hentry := lookupDeps_mem hld
        rw [hld] at hpd
        simp only [Option.getD_some] at hpd
        have hcf : ∀ fn v, lookupAssoc (convApi components
            (convAppId project_uuid document_uuid)
            (buildMetadata objs).dependencies) fn = some v → NoColon v :=
          fun fn v h => convApi_noColon h
        have hemit := transLoop_emit hpid hcid hpd hcf
          (buildMetadata objs).package_name_to_deps [] hentry
        rcases hemit with hin | hkey
        · constructor
          · show depOn pid cid ∈
              convRels components (convAppId project_uuid document_uuid)
                (some (buildMetadata objs))
            rw [convRels, convRelsTail]
            exact List.mem_cons_of_mem _ (List.mem_append_right _ hin)
          · show depOf cid pid ∈
              convRels components (convAppId project_uuid document_uuid)
                (some (buildMetadata objs))
            rw [convRels, convRelsTail]
            exact List.mem_cons_of_mem _
              (List.mem_append_right _ (depOf_of_depOn_transLoop hin))
        · simp at hkey

/-- C5 witness: both amended clauses at the concrete scenario. -/
theorem C5_witness :
    (depOn (convAppId "pu" "du") "SPDXRef-Package-p-1" ∈ c5wRels ∧
     depOf "SPDXRef-Package-p-1" (convAppId "pu" "du") ∈ c5wRels) ∧
    (depOn "SPDXRef-Package-p-1" "SPDXRef-Package-ch-1" ∈ c5wRels ∧
     depOf "SPDXRef-Package-ch-1" "SPDXRef-Package-p-1" ∈ c5wRels) :=
  ⟨C5_edge_wiring.1 c5wComps c5wObjs "ns" "org" "pe" "pu" "du" "t" none
      ⟨"pypi://p@1", "pypi://p", "1", true, ""⟩ "SPDXRef-Package-p-1"
      (by decide) rfl (by decide),
   C5_edge_wiring.2 c5wComps c5wObjs "ns" "org" "pe" "pu" "du" "t" none
      ⟨"pypi://ch@1", "pypi://ch", "1", false, "pypi://p@1"⟩
      "SPDXRef-Package-p-1" "SPDXRef-Package-ch-1"
      (by decide) (by decide) (by decide) (by decide)⟩

theorem addDirect_nodup {s : List String} (h : s.Nodup) (fn : String) :
    (addDirect s fn).Nodup := by
  rw [addDirect]
  split
  · exact h
  case isFalse hmem =>
    rw [List.nodup_append]
    refine ⟨h, List.nodup_singleton fn, ?_⟩
    intro a ha hafn
    rcases List.mem_singleton.mp hafn
    exact hmem ha

theorem metaStep_direct (md : DepMetadata) (d : DepInfo) :
    (metaStep md d).direct_dependencies =
      if d.is_direct then addDirect md.direct_dependencies d.name
      else md.direct_dependencies := rfl

theorem direct_nodup_foldl :
    ∀ (l : List DepInfo) (acc : DepMetadata), acc.direct_dependencies.Nodup →
      (l.foldl metaStep acc).direct_dependencies.Nodup := by
  intro l
  induction l with
  | nil => intro acc h; exact h
  | cons d rest ih =>
      intro acc h
      rw [List.foldl_cons]
      refine ih _ ?_
      rw [metaStep_direct]
      split
      · exact addDirect_nodup h _
      · exact h

/-- The direct-dependency set of the metadata aggregate is duplicate-free
(it models a Python set). -/
theorem buildMetadata_direct_nodup (objs : List DepInfo) :
    (buildMetadata objs).direct_dependencies.Nodup := by
  rw [buildMetadata]
  exact direct_nodup_foldl objs _ List.nodup_nil

/-- The DEPENDS_ON pairs of the direct loop, computed pointwise. -/
theorem directRels_onKeys (api : List (String × String)) (appId : String) :
    ∀ ds : List String, (directRels api appId ds).filterMap depOnKey =
      ds.filterMap (fun dn => (lookupAssoc api dn).map (fun v => (appId, v))) := by
  intro ds
  induction ds with
  | nil => rfl
  | cons dn rest ih =>
      cases hl : lookupAssoc api dn with
      | none => simp only [directRels, hl, List.filterMap_cons, Option.map]; exact ih
      | some did =>
          simp only [directRels, hl, List.filterMap_cons, depOnKey_depOn,
            depOnKey_depOf, Option.map]
          rw [ih]
          rfl

/-- The direct loop emits no duplicate DEPENDS_ON pair when distinct direct
names never resolve to the same ID. -/
theorem direct_keys_nodup {api : List (String × String)} {appId : String} :
    ∀ ds : List String, ds.Nodup →
      (∀ dn1 ∈ ds, ∀ dn2 ∈ ds, ∀ v : String, lookupAssoc api dn1 = some v →
        lookupAssoc api dn2 = some v → dn1 = dn2) →
      (ds.filterMap (fun dn => (lookupAssoc api dn).map
        (fun v => (appId, v)))).Nodup := by
  intro ds
  induction ds with
  | nil => intro _ _; simp
  | cons dn rest ih =>
      intro hnd hinj
      rcases List.nodup_cons.mp hnd with ⟨hdn, hrest⟩
      have ihres := ih hrest (fun d1 h1 d2 h2 v ha hb =>
        hinj d1 (List.mem_cons_of_mem dn h1) d2 (List.mem_cons_of_mem dn h2)
          v ha hb)
      cases hl : lookupAssoc api dn with
      | none => simp only [List.filterMap_cons, hl, Option.map]; exact ihres
      | some v =>
          simp only [List.filterMap_cons, hl, Option.map]
          refine List.Nodup.cons ?_ ihres
          intro hmem
          rcases List.mem_filterMap.mp hmem with ⟨dn', hdn', hval⟩
          cases hl' : lookupAssoc api dn' with
          | none => rw [hl'] at hval; simp at hval
          | some v' =>
              rw [hl'] at hval
              have hv : v' = v := by
                simpa using congrArg (fun o => o.map Prod.snd) hval
              rw [hv] at hl'
              have := hinj dn (List.mem_cons_self dn rest) dn'
                (List.mem_cons_of_mem dn hdn') v hl hl'
              rw [this] at hdn
              exact hdn hdn'

/-- Invariants of the inner transitive loop: its DEPENDS_ON pairs are
duplicate-free, all have the parent as source, their dedup keys avoid the
incoming processed set, the processed set only grows, and every emitted
pair's key is in the grown set. -/
theorem childLoop_pack {api : List (String × String)} {pid : String} :
    ∀ ds processed : List String,
      (((childLoop api pid ds processed).1).filterMap depOnKey).Nodup ∧
      (∀ x ∈ ((childLoop api pid ds processed).1).filterMap depOnKey,
        x.1 = pid) ∧
      (∀ x ∈ ((childLoop api pid ds processed).1).filterMap depOnKey,
        (x.1 ++ ":" ++ x.2) ∉ processed) ∧
      (∀ k ∈ processed, k ∈ (childLoop api pid ds processed).2) ∧
      (∀ x ∈ ((childLoop api pid ds processed).1).filterMap depOnKey,
        (x.1 ++ ":" ++ x.2) ∈ (childLoop api pid ds processed).2) := by
  intro ds
  induction ds with
  | nil =>
      intro processed
      exact ⟨by simp [childLoop], by simp [childLoop], by simp [childLoop],
        fun k hk => hk, by simp [childLoop]⟩
  | cons dn rest ih =>
      intro processed
      cases hl : lookupAssoc api dn with
      | none => simpa only [childLoop, hl] using ih processed
      | some cid =>
          by_cases hk : (pid ++ ":" ++ cid) ∈ processed
          · simpa only [childLoop, hl, if_pos hk] using ih processed
          · have ihr := ih ((pid ++ ":" ++ cid) :: processed)
            simp only [childLoop, hl, if_neg hk, List.filterMap_cons,
              depOnKey_depOn, depOnKey_depOf]
            refine ⟨?_, ?_, ?_, ?_, ?_⟩
            · refine List.Nodup.cons ?_ ihr.1
              intro hmem
              have := ihr.2.2.1 (pid, cid) hmem
              exact this (List.mem_cons_self _ _)
            · intro x hx
              rcases List.mem_cons.mp hx with rfl | hx
              · rfl
              · exact ihr.2.1 x hx
            · intro x hx
              rcases List.mem_cons.mp hx with rfl | hx
              · exact hk
              · intro hmem
                exact ihr.2.2.1 x hx (List.mem_cons_of_mem _ hmem)
            · intro k hkp
              exact ihr.2.2.2.1 k (List.mem_cons_of_mem _ hkp)
            · intro x hx
              rcases List.mem_cons.mp hx with rfl | hx
              · exact ihr.2.2.2.1 _ (List.mem_cons_self _ _)
              · exact ihr.2.2.2.2 x hx

/-- Invariants of the transitive loop: its DEPENDS_ON pairs are
duplicate-free, their dedup keys avoid the incoming processed set, and
every pair's source is an api-dict value. -/
theorem transLoop_pack {api : List (String × String)} :
    ∀ (entries : List (String × List String)) (processed : List String),
      ((transLoop api entries processed).filterMap depOnKey).Nodup ∧
      (∀ x ∈ (transLoop api entries processed).filterMap depOnKey,
        (x.1 ++ ":" ++ x.2) ∉ processed) ∧
      (∀ x ∈ (transLoop api entries processed).filterMap depOnKey,
        ∃ fn, lookupAssoc api fn = some x.1) := by
  intro entries
  induction entries with
  | nil =>
      intro processed
      exact ⟨by simp [transLoop], by simp [transLoop], by simp [transLoop]⟩
  | cons e rest ih =>
      intro processed
      rcases e with ⟨pn, ds⟩
      cases hl : lookupAssoc api pn with
      | none => simpa only [transLoop, hl] using ih processed
      | some pid =>
          have cl := @childLoop_pack api pid ds processed
          have ihr := ih (childLoop api pid ds processed).2
          simp only [transLoop, hl, List.filterMap_append]
          refine ⟨?_, ?_, ?_⟩
          · refine List.Nodup.append cl.1 ihr.1 ?_
            intro x hxc hxt
            exact ihr.2.1 x hxt (cl.2.2.2.2 x hxc)
          · intro x hx
            rcases List.mem_append.mp hx with hx | hx
            · exact cl.2.2.1 x hx
            · intro hmem
              exact ihr.2.1 x hx (cl.2.2.2.1 _ hmem)
          · intro x hx
            rcases List.mem_append.mp hx with hx | hx
            · exact ⟨pn, by rw [hl, cl.2.1 x hx]⟩
            · exact ihr.2.2 x hx

/-- No api-dict value equals the application package ID. -/
theorem convApi_ne_appId {components : List Component} {appId : String}
    {deps : List DepInfo} {fn v : String}
    (h : lookupAssoc (convApi components appId deps) fn = some v) :
    v ≠ appId := by
  rcases List.mem_map.mp (convApi_values h) with ⟨p, hp, hpv⟩
  intro hc
  refine (processComponents_ids components [appId]).1 p hp ?_
  rw [hpv, hc]
  exact List.mem_singleton.mpr rfl

/-- C9 counterexample: the direct loop deduplicates only by full name, so
two direct edges with distinct full names that resolve to the same package
produce the identical DEPENDS_ON record twice. -/
theorem C9_counterexample :
    ¬ (((convert_cyclonedx_to_spdx [c9Comp] (some (buildMetadata c9Objs))
      "ns" "org" "pe" "pu" "du" "t" none).relationships.getD []).filterMap
      depOnKey).Nodup := by
  decide

/-- C9 (amended): provided distinct direct full names never resolve to the
same package ID, the converter emits each directed (source, target)
DEPENDS_ON pair at most once and each (target, source) DEPENDENCY_OF pair
at most once; without that proviso, two direct edges with distinct full
names resolving to the same package yield duplicate records. -/
theorem C9_no_duplicate_relationships (components : List Component)
    (objs : List DepInfo)
    (ns organization person_email project_uuid document_uuid now : String)
    (project_name : Option String)
    (hinj : ∀ dn1 ∈ (buildMetadata objs).direct_dependencies,
      ∀ dn2 ∈ (buildMetadata objs).direct_dependencies,
      (lookupAssoc (convApi components (convAppId project_uuid document_uuid)
        (buildMetadata objs).dependencies) dn1).isSome = true →
      lookupAssoc (convApi components (convAppId project_uuid document_uuid)
        (buildMetadata objs).dependencies) dn1 =
        lookupAssoc (convApi components (convAppId project_uuid document_uuid)
          (buildMetadata objs).dependencies) dn2 →
      dn1 = dn2) :
    (((convert_cyclonedx_to_spdx components (some (buildMetadata objs)) ns
      organization person_email project_uuid document_uuid now
      project_name).relationships.getD []).filterMap depOnKey).Nodup ∧
    (((convert_cyclonedx_to_spdx components (some (buildMetadata objs)) ns
      organization person_email project_uuid document_uuid now
      project_name).relationships.getD []).filterMap depOfKey).Nodup := by
  have hinjv : ∀ dn1 ∈ (buildMetadata objs).direct_dependencies,
      ∀ dn2 ∈ (buildMetadata objs).direct_dependencies, ∀ v : String,
      lookupAssoc (convApi components (convAppId project_uuid document_uuid)
        (buildMetadata objs).dependencies) dn1 = some v →
      lookupAssoc (convApi components (convAppId project_uuid document_uuid)
        (buildMetadata objs).dependencies) dn2 = some v →
      dn1 = dn2 := by
    intro dn1 h1 dn2 h2 v ha hb
    refine hinj dn1 h1 dn2 h2 ?_ ?_
    · rw [ha]; rfl
    · rw [ha, hb]
  have honkeys : (((convert_cyclonedx_to_spdx components
      (some (buildMetadata objs)) ns organization person_email project_uuid
      document_uuid now project_name).relationships.getD []).filterMap
      depOnKey).Nodup := by
    show ((convRels components (convAppId project_uuid document_uuid)
      (some (buildMetadata objs))).filterMap depOnKey).Nodup
    rw [convRels, convRelsTail]
    simp only [List.filterMap_cons, List.filterMap_append]
    rw [show depOnKey ⟨"SPDXRef-DOCUMENT",
      convAppId project_uuid document_uuid, "DESCRIBES"⟩ = none from rfl]
    refine List.Nodup.append ?_ (transLoop_pack _ []).1 ?_
    · rw [directRels_onKeys]
      exact direct_keys_nodup _ (buildMetadata_direct_nodup objs) hinjv
    · intro x hxd hxt
      rw [directRels_onKeys] at hxd
      rcases List.mem_filterMap.mp hxd with ⟨dn, _, hval⟩
      have hx1 : x.1 = convAppId project_uuid document_uuid := by
        cases hll : lookupAssoc (convApi components
            (convAppId project_uuid document_uuid)
            (buildMetadata objs).dependencies) dn with
        | none => rw [hll] at hval; simp at hval
        | some v =>
            rw [hll] at hval
            have : (convAppId project_uuid document_uuid, v) = x := by
              simpa using hval
            rw [← this]
      rcases (transLoop_pack _ []).2.2 x hxt with ⟨fn, hfn⟩
      exact convApi_ne_appId hfn hx1
  refine ⟨honkeys, ?_⟩
  show ((convRels components (convAppId project_uuid document_uuid)
    (some (buildMetadata objs))).filterMap depOfKey).Nodup
  rw [convRels_keys]
  exact List.Nodup.map Prod.swap_injective honkeys

/-- C9 witness: with a single direct edge the injectivity proviso holds and
the output contains no duplicate relationship records. -/
theorem C9_witness :
    (((convert_cyclonedx_to_spdx [c9Comp] (some (buildMetadata c9wObjs)) "ns"
      "org" "pe" "pu" "du" "t" none).relationships.getD []).filterMap
      depOnKey).Nodup ∧
    (((convert_cyclonedx_to_spdx [c9Comp] (some (buildMetadata c9wObjs)) "ns"
      "org" "pe" "pu" "du" "t" none).relationships.getD []).filterMap
      depOfKey).Nodup :=
  C9_no_duplicate_relationships [c9Comp] c9wObjs "ns" "org" "pe" "pu" "du"
    "t" none (by decide)
